import Mathlib

/-!
Verification of the Maze Engine of the `darkmaze` repository
(`src/js/maze.js`), a depth-first randomized spanning-tree maze generator
with a movement/connectivity query surface.

The JavaScript class `Maze` is shallowly embedded: the mutable 2-D array
`this.grid` (accessed as `grid[y][x]`) becomes a function `Grid := Nat →
Nat → Cell` updated pointwise; the ambient random source `Math.random()`
becomes an explicit stream `rs : Nat → Nat` of draws, the selected index
being `rs 0 % neighbors.length` (every run of the original corresponds to
some stream, and all theorems quantify over all streams); the `while` loop
of `generate` becomes the well-founded recursion `genLoop`; the JS values
returned by `canMove` (`false`, `'wall'`, `'boundary'`, `'invalid'`)
become the inductive `MoveResult`; the `delete cell.visited` cleanup is
modelled by `visited : Option Bool` where `none` is an absent property.
-/

namespace Darkmaze

/-- The four per-cell boundary flags `{n, e, s, w}` of `maze.js`
(`true` = a wall is present on that side). -/
structure Walls where
  n : Bool
  e : Bool
  s : Bool
  w : Bool
deriving DecidableEq, Repr

/-- A cell of the grid: position fields `x`, `y`, the wall flags, and the
transient `visited` property (`none` models the property being deleted). -/
structure Cell where
  x : Nat
  y : Nat
  walls : Walls
  visited : Option Bool
deriving DecidableEq, Repr

/-- The grid `this.grid`, accessed as `grid[y][x]`; embedded as a total
function (the source only ever reads in-bounds indices). -/
def Grid : Type := Nat → Nat → Cell

/-- `initGrid`: every cell fully walled, `visited = false`, carrying its
own coordinates. -/
def initGrid (_width _height : Nat) : Grid :=
  fun y x => { x := x, y := y, walls := ⟨true, true, true, true⟩, visited := some false }

/-- Pointwise update of the grid at column `x`, row `y` (mutation of the
array cell `grid[y][x]`). -/
def setCell (g : Grid) (x y : Nat) (c : Cell) : Grid :=
  fun y' x' => if x' = x ∧ y' = y then c else g y' x'

/-- Overwrite the wall flags of the cell at `(x, y)`. -/
def setWalls (g : Grid) (x y : Nat) (ws : Walls) : Grid :=
  setCell g x y { g y x with walls := ws }

/-- `cell.visited = true` on the cell at `(x, y)`. -/
def markVisited (g : Grid) (x y : Nat) : Grid :=
  setCell g x y { g y x with visited := some true }

/-- JS truthiness of `!cell.visited`: true when the property is absent or
`false`. -/
def isUnvisitedAt (g : Grid) (x y : Nat) : Bool :=
  !((g y x).visited.getD false)

/-- Truthiness of `cell.visited`. -/
def visitedAt (g : Grid) (x y : Nat) : Bool :=
  (g y x).visited.getD false

/-- `Maze.removeWall(a, b)`: clears the facing pair of wall flags between
the two adjacent cells at positions `a` and `b`, branching on the signed
coordinate deltas exactly as the source does. -/
def removeWall (g : Grid) (a b : Nat × Nat) : Grid :=
  let dx : Int := (b.1 : Int) - (a.1 : Int)
  let dy : Int := (b.2 : Int) - (a.2 : Int)
  if dx = 1 then
    let g1 := setWalls g a.1 a.2 { (g a.2 a.1).walls with e := false }
    setWalls g1 b.1 b.2 { (g1 b.2 b.1).walls with w := false }
  else if dx = -1 then
    let g1 := setWalls g a.1 a.2 { (g a.2 a.1).walls with w := false }
    setWalls g1 b.1 b.2 { (g1 b.2 b.1).walls with e := false }
  else if dy = 1 then
    let g1 := setWalls g a.1 a.2 { (g a.2 a.1).walls with s := false }
    setWalls g1 b.1 b.2 { (g1 b.2 b.1).walls with n := false }
  else if dy = -1 then
    let g1 := setWalls g a.1 a.2 { (g a.2 a.1).walls with n := false }
    setWalls g1 b.1 b.2 { (g1 b.2 b.1).walls with s := false }
  else g

/-- `Maze.getUnvisitedNeighbors(cell)`: the bounds-checked unvisited
grid-neighbors of `(x, y)`, in source order North, East, South, West. -/
def getUnvisitedNeighbors (width height : Nat) (g : Grid) (x y : Nat) : List (Nat × Nat) :=
  (if 0 < y ∧ isUnvisitedAt g x (y - 1) then [(x, y - 1)] else []) ++
  (if x + 1 < width ∧ isUnvisitedAt g (x + 1) y then [(x + 1, y)] else []) ++
  (if y + 1 < height ∧ isUnvisitedAt g x (y + 1) then [(x, y + 1)] else []) ++
  (if 0 < x ∧ isUnvisitedAt g (x - 1) y then [(x - 1, y)] else [])

/-- The in-bounds positions `(x, y)` of a `width × height` grid. -/
def posFinset (width height : Nat) : Finset (Nat × Nat) :=
  Finset.range width ×ˢ Finset.range height

/-- Number of in-bounds cells whose `visited` property is truthy. -/
def visitedCount (width height : Nat) (g : Grid) : Nat :=
  ((posFinset width height).filter (fun p => visitedAt g p.1 p.2 = true)).card

/-- Number of in-bounds cells whose `visited` property is falsy. -/
def unvisitedCount (width height : Nat) (g : Grid) : Nat :=
  ((posFinset width height).filter (fun p => isUnvisitedAt g p.1 p.2 = true)).card

theorem setCell_eval (g : Grid) (x y : Nat) (c : Cell) (y' x' : Nat) :
    setCell g x y c y' x' = if x' = x ∧ y' = y then c else g y' x' := rfl

theorem setCell_same (g : Grid) (x y : Nat) (c : Cell) :
    setCell g x y c y x = c := by
  simp [setCell]

theorem setCell_other (g : Grid) (x y : Nat) (c : Cell) {y' x' : Nat}
    (h : ¬(x' = x ∧ y' = y)) : setCell g x y c y' x' = g y' x' := by
  simp [setCell, h]

theorem markVisited_visited (g : Grid) (px py x y : Nat) :
    ((markVisited g px py) y x).visited =
      if x = px ∧ y = py then some true else (g y x).visited := by
  unfold markVisited
  by_cases h : x = px ∧ y = py
  · obtain ⟨h1, h2⟩ := h
    subst h1; subst h2
    simp [setCell_same]
  · simp [setCell_other _ _ _ _ h, h]

theorem markVisited_walls (g : Grid) (px py x y : Nat) :
    ((markVisited g px py) y x).walls = (g y x).walls := by
  unfold markVisited
  by_cases h : x = px ∧ y = py
  · obtain ⟨h1, h2⟩ := h
    subst h1; subst h2
    simp [setCell_same]
  · simp [setCell_other _ _ _ _ h]

theorem markVisited_coords (g : Grid) (px py x y : Nat) :
    ((markVisited g px py) y x).x = (g y x).x ∧
    ((markVisited g px py) y x).y = (g y x).y := by
  unfold markVisited
  by_cases h : x = px ∧ y = py
  · obtain ⟨h1, h2⟩ := h
    subst h1; subst h2
    simp [setCell_same]
  · simp [setCell_other _ _ _ _ h]

theorem setWalls_visited (g : Grid) (px py x y : Nat) (ws : Walls) :
    ((setWalls g px py ws) y x).visited = (g y x).visited := by
  unfold setWalls
  by_cases h : x = px ∧ y = py
  · obtain ⟨h1, h2⟩ := h
    subst h1; subst h2
    simp [setCell_same]
  · simp [setCell_other _ _ _ _ h]

theorem setWalls_coords (g : Grid) (px py x y : Nat) (ws : Walls) :
    ((setWalls g px py ws) y x).x = (g y x).x ∧
    ((setWalls g px py ws) y x).y = (g y x).y := by
  unfold setWalls
  by_cases h : x = px ∧ y = py
  · obtain ⟨h1, h2⟩ := h
    subst h1; subst h2
    simp [setCell_same]
  · simp [setCell_other _ _ _ _ h]

theorem removeWall_visited (g : Grid) (a b : Nat × Nat) (x y : Nat) :
    ((removeWall g a b) y x).visited = (g y x).visited := by
  unfold removeWall
  split
  · simp [setWalls_visited]
  · split
    · simp [setWalls_visited]
    · split
      · simp [setWalls_visited]
      · split
        · simp [setWalls_visited]
        · rfl

theorem removeWall_coords (g : Grid) (a b : Nat × Nat) (x y : Nat) :
    ((removeWall g a b) y x).x = (g y x).x ∧
    ((removeWall g a b) y x).y = (g y x).y := by
  unfold removeWall
  split
  · constructor
    · rw [(setWalls_coords _ _ _ _ _ _).1, (setWalls_coords _ _ _ _ _ _).1]
    · rw [(setWalls_coords _ _ _ _ _ _).2, (setWalls_coords _ _ _ _ _ _).2]
  · split
    · constructor
      · rw [(setWalls_coords _ _ _ _ _ _).1, (setWalls_coords _ _ _ _ _ _).1]
      · rw [(setWalls_coords _ _ _ _ _ _).2, (setWalls_coords _ _ _ _ _ _).2]
    · split
      · constructor
        · rw [(setWalls_coords _ _ _ _ _ _).1, (setWalls_coords _ _ _ _ _ _).1]
        · rw [(setWalls_coords _ _ _ _ _ _).2, (setWalls_coords _ _ _ _ _ _).2]
      · split
        · constructor
          · rw [(setWalls_coords _ _ _ _ _ _).1, (setWalls_coords _ _ _ _ _ _).1]
          · rw [(setWalls_coords _ _ _ _ _ _).2, (setWalls_coords _ _ _ _ _ _).2]
        · exact ⟨rfl, rfl⟩

theorem visitedAt_markVisited (g : Grid) (px py x y : Nat) :
    visitedAt (markVisited g px py) x y =
      if x = px ∧ y = py then true else visitedAt g x y := by
  unfold visitedAt
  rw [markVisited_visited]
  by_cases h : x = px ∧ y = py <;> simp [h]

theorem visitedAt_removeWall (g : Grid) (a b : Nat × Nat) (x y : Nat) :
    visitedAt (removeWall g a b) x y = visitedAt g x y := by
  unfold visitedAt
  rw [removeWall_visited]

theorem isUnvisitedAt_eq_not_visitedAt (g : Grid) (x y : Nat) :
    isUnvisitedAt g x y = !(visitedAt g x y) := rfl

/-- Membership in the unvisited-neighbor list: the neighbor is unvisited
and sits at one of the four bounds-checked offsets. -/
theorem mem_getUnvisitedNeighbors {width height : Nat} {g : Grid} {x y : Nat}
    {q : Nat × Nat} (h : q ∈ getUnvisitedNeighbors width height g x y) :
    isUnvisitedAt g q.1 q.2 = true ∧
    ((0 < y ∧ q = (x, y - 1)) ∨ (x + 1 < width ∧ q = (x + 1, y)) ∨
     (y + 1 < height ∧ q = (x, y + 1)) ∨ (0 < x ∧ q = (x - 1, y))) := by
  unfold getUnvisitedNeighbors at h
  simp only [List.mem_append] at h
  rcases h with ((h | h) | h) | h <;>
  · split at h
    · rename_i hc
      simp only [List.mem_singleton] at h
      subst h
      exact ⟨hc.2, by tauto⟩
    · simp at h

theorem isUnvisitedAt_step (g : Grid) (cur next : Nat × Nat) (x y : Nat) :
    isUnvisitedAt (markVisited (removeWall g cur next) next.1 next.2) x y =
      if x = next.1 ∧ y = next.2 then false else isUnvisitedAt g x y := by
  simp only [isUnvisitedAt_eq_not_visitedAt, visitedAt_markVisited, visitedAt_removeWall]
  by_cases h : x = next.1 ∧ y = next.2 <;> simp [h]

theorem mem_posFinset {width height : Nat} {p : Nat × Nat} :
    p ∈ posFinset width height ↔ p.1 < width ∧ p.2 < height := by
  simp [posFinset, Finset.mem_product]

theorem unvisitedCount_mono_region {w w' h h' : Nat} (hw : w ≤ w') (hh : h ≤ h')
    (g : Grid) : unvisitedCount w h g ≤ unvisitedCount w' h' g := by
  apply Finset.card_le_card
  apply Finset.filter_subset_filter
  intro p hp
  rw [mem_posFinset] at hp ⊢
  omega

theorem unvisitedCount_mark_lt {W H : Nat} (g : Grid) (cur next : Nat × Nat)
    (hx : next.1 < W) (hy : next.2 < H)
    (hu : isUnvisitedAt g next.1 next.2 = true) :
    unvisitedCount W H (markVisited (removeWall g cur next) next.1 next.2) <
      unvisitedCount W H g := by
  apply Finset.card_lt_card
  rw [Finset.ssubset_iff_of_subset]
  · refine ⟨next, ?_, ?_⟩
    · rw [Finset.mem_filter, mem_posFinset]
      exact ⟨⟨hx, hy⟩, hu⟩
    · rw [Finset.mem_filter]
      rintro ⟨-, hcontra⟩
      rw [isUnvisitedAt_step] at hcontra
      simp at hcontra
  · intro p hp
    rw [Finset.mem_filter] at hp ⊢
    refine ⟨hp.1, ?_⟩
    have h2 := hp.2
    rw [isUnvisitedAt_step] at h2
    by_cases he : p.1 = next.1 ∧ p.2 = next.2
    · rw [if_pos he] at h2
      exact absurd h2 (by simp)
    · rwa [if_neg he] at h2

/-- Width bound used only by the termination measure of `genLoop`:
the grid width enlarged to cover every column mentioned on the stack. -/
def stackW (width : Nat) (stack : List (Nat × Nat)) : Nat :=
  stack.foldr (fun p acc => max (p.1 + 1) acc) width

/-- Height bound used only by the termination measure of `genLoop`. -/
def stackH (height : Nat) (stack : List (Nat × Nat)) : Nat :=
  stack.foldr (fun p acc => max (p.2 + 1) acc) height

theorem stackW_cons (width : Nat) (p : Nat × Nat) (s : List (Nat × Nat)) :
    stackW width (p :: s) = max (p.1 + 1) (stackW width s) := rfl

theorem stackH_cons (height : Nat) (p : Nat × Nat) (s : List (Nat × Nat)) :
    stackH height (p :: s) = max (p.2 + 1) (stackH height s) := rfl

theorem width_le_stackW (width : Nat) (s : List (Nat × Nat)) : width ≤ stackW width s := by
  induction s with
  | nil => exact le_refl _
  | cons p t ih => rw [stackW_cons]; omega

theorem height_le_stackH (height : Nat) (s : List (Nat × Nat)) : height ≤ stackH height s := by
  induction s with
  | nil => exact le_refl _
  | cons p t ih => rw [stackH_cons]; omega

theorem pop_measure (width height : Nat) (g : Grid) (current : Nat × Nat)
    (rest : List (Nat × Nat)) :
    2 * unvisitedCount (stackW width rest) (stackH height rest) g + rest.length <
      2 * unvisitedCount (stackW width (current :: rest)) (stackH height (current :: rest)) g
        + (current :: rest).length := by
  have h1 : unvisitedCount (stackW width rest) (stackH height rest) g ≤
      unvisitedCount (stackW width (current :: rest)) (stackH height (current :: rest)) g := by
    apply unvisitedCount_mono_region
    · rw [stackW_cons]; omega
    · rw [stackH_cons]; omega
  simp only [List.length_cons]
  omega

theorem push_measure (width height : Nat) (g : Grid) (current : Nat × Nat)
    (rest : List (Nat × Nat)) {next : Nat × Nat}
    (hmem : next ∈ getUnvisitedNeighbors width height g current.1 current.2) :
    2 * unvisitedCount (stackW width (next :: current :: rest))
          (stackH height (next :: current :: rest))
          (markVisited (removeWall g current next) next.1 next.2)
        + (next :: current :: rest).length <
      2 * unvisitedCount (stackW width (current :: rest)) (stackH height (current :: rest)) g
        + (current :: rest).length := by
  obtain ⟨hu, hcase⟩ := mem_getUnvisitedNeighbors hmem
  have hW : width ≤ stackW width (current :: rest) := width_le_stackW _ _
  have hH : height ≤ stackH height (current :: rest) := height_le_stackH _ _
  have hcur1 : current.1 + 1 ≤ stackW width (current :: rest) := by
    rw [stackW_cons]; omega
  have hcur2 : current.2 + 1 ≤ stackH height (current :: rest) := by
    rw [stackH_cons]; omega
  have hx : next.1 < stackW width (current :: rest) := by
    rcases hcase with ⟨hb, he⟩ | ⟨hb, he⟩ | ⟨hb, he⟩ | ⟨hb, he⟩ <;> subst he <;> simp <;> omega
  have hy : next.2 < stackH height (current :: rest) := by
    rcases hcase with ⟨hb, he⟩ | ⟨hb, he⟩ | ⟨hb, he⟩ | ⟨hb, he⟩ <;> subst he <;> simp <;> omega
  have hWeq : stackW width (next :: current :: rest) = stackW width (current :: rest) := by
    rw [stackW_cons (p := next)]; omega
  have hHeq : stackH height (next :: current :: rest) = stackH height (current :: rest) := by
    rw [stackH_cons (p := next)]; omega
  rw [hWeq, hHeq]
  have hlt := unvisitedCount_mark_lt g current next hx hy hu
  simp only [List.length_cons]
  omega

/-- The `while (stack.length > 0)` loop of `Maze.generate`: peek the top,
backtrack when no unvisited neighbor remains, otherwise carve to the
`rs 0 % neighbors.length`-th unvisited neighbor, mark it visited and push
it. The stack holds positions (the source's cell references alias the
grid). -/
def genLoop (width height : Nat) (g : Grid) (stack : List (Nat × Nat))
    (rs : Nat → Nat) : Grid :=
  match stack with
  | [] => g
  | current :: rest =>
    let neighbors := getUnvisitedNeighbors width height g current.1 current.2
    if h : neighbors.length = 0 then
      genLoop width height g rest rs
    else
      let next := neighbors.get ⟨rs 0 % neighbors.length,
        Nat.mod_lt _ (Nat.pos_of_ne_zero h)⟩
      genLoop width height (markVisited (removeWall g current next) next.1 next.2)
        (next :: current :: rest) (fun n => rs (n + 1))
termination_by 2 * unvisitedCount (stackW width stack) (stackH height stack) g + stack.length
decreasing_by
  · exact pop_measure width height g current rest
  · exact push_measure width height g current rest (List.get_mem _ _ _)

/-- The `delete this.grid[y][x].visited` cleanup loop at the end of
`Maze.generate`: removes the `visited` property from every in-bounds cell. -/
def clearVisited (width height : Nat) (g : Grid) : Grid :=
  fun y x => if y < height ∧ x < width then { g y x with visited := none } else g y x

/-- `Maze.generate()`: fresh fully-walled grid, mark `grid[0][0]` visited,
push it, run the carving loop, then delete the `visited` markers. -/
def generate (width height : Nat) (rs : Nat → Nat) : Grid :=
  let g0 := initGrid width height
  let g1 := markVisited g0 0 0
  clearVisited width height (genLoop width height g1 [(0, 0)] rs)

/-- The `Maze` object: `width`, `height`, `grid`, `start`, `goal`. -/
structure Maze where
  width : Nat
  height : Nat
  grid : Grid
  start : Nat × Nat
  goal : Nat × Nat

/-- `new Maze(width, height)`: stores the dimensions, `start = (0,0)`,
`goal = (width-1, height-1)`, and runs `generate()` immediately. -/
def mkMaze (width height : Nat) (rs : Nat → Nat) : Maze :=
  { width := width
    height := height
    grid := generate width height rs
    start := (0, 0)
    goal := (width - 1, height - 1) }

/-- The default dimension of the constructor signature
`constructor(width = 20, height = 20)`. -/
def defaultDim : Nat := 20

/-- `new Maze()` with both arguments omitted: the defaults apply. -/
def mkMazeDefault (rs : Nat → Nat) : Maze :=
  mkMaze defaultDim defaultDim rs

/-- `Maze.regenerate()`: reruns `generate()` in place; only the grid is
replaced. -/
def regenerate (m : Maze) (rs : Nat → Nat) : Maze :=
  { m with grid := generate m.width m.height rs }

/-- The four values `Maze.canMove` can return: the JS literal `false`
(movement allowed — the spec's OPEN), and the strings `'wall'`
(BLOCKED_BY_WALL), `'boundary'` (OUT_OF_BOUNDS), `'invalid'`
(INVALID_DIRECTION). -/
inductive MoveResult where
  | falseVal
  | wall
  | boundary
  | invalid
deriving DecidableEq, Repr

/-- `Maze.canMove(x, y, direction)`: bounds check first (coordinates are
JS numbers, so embedded as `Int`), then the `switch` on the direction
string, defaulting to `'invalid'`. Pure read. -/
def canMove (m : Maze) (x y : Int) (direction : String) : MoveResult :=
  if x < 0 ∨ x ≥ (m.width : Int) ∨ y < 0 ∨ y ≥ (m.height : Int) then
    .boundary
  else
    let cell := m.grid y.toNat x.toNat
    if direction = "n" then (if cell.walls.n then .wall else .falseVal)
    else if direction = "e" then (if cell.walls.e then .wall else .falseVal)
    else if direction = "s" then (if cell.walls.s then .wall else .falseVal)
    else if direction = "w" then (if cell.walls.w then .wall else .falseVal)
    else .invalid

/-- `Maze.isGoal(x, y)`. -/
def isGoal (m : Maze) (x y : Int) : Bool :=
  x = (m.goal.1 : Int) ∧ y = (m.goal.2 : Int)

/-- `Maze.getCell(x, y)`: bounds-checked lookup, `null` (here `none`) when
out of range. -/
def getCell (m : Maze) (x y : Int) : Option Cell :=
  if 0 ≤ x ∧ x < (m.width : Int) ∧ 0 ≤ y ∧ y < (m.height : Int) then
    some (m.grid y.toNat x.toNat)
  else
    none

/-- `Maze.getAdjacentWallCount(x, y)`: `0` when `getCell` fails, else the
number of set wall flags of the cell. -/
def getAdjacentWallCount (m : Maze) (x y : Int) : Nat :=
  match getCell m x y with
  | none => 0
  | some cell =>
    (if cell.walls.n then 1 else 0) + (if cell.walls.e then 1 else 0) +
    (if cell.walls.s then 1 else 0) + (if cell.walls.w then 1 else 0)

/-- Fueled variant of the `while` loop of `Maze.generate`, used to state
termination (claim C3): `none` models running out of fuel, i.e. the loop
still spinning after `fuel` iterations. Identical branch structure to
`genLoop`. -/
def genLoopF (width height : Nat) (fuel : Nat) (g : Grid)
    (stack : List (Nat × Nat)) (rs : Nat → Nat) : Option Grid :=
  match fuel with
  | 0 => none
  | fuel + 1 =>
    match stack with
    | [] => some g
    | current :: rest =>
      let neighbors := getUnvisitedNeighbors width height g current.1 current.2
      if h : neighbors.length = 0 then
        genLoopF width height fuel g rest rs
      else
        let next := neighbors.get ⟨rs 0 % neighbors.length,
          Nat.mod_lt _ (Nat.pos_of_ne_zero h)⟩
        genLoopF width height fuel (markVisited (removeWall g current next) next.1 next.2)
          (next :: current :: rest) (fun n => rs (n + 1))

/-- Fueled variant of `Maze.generate`. -/
def generateF (width height : Nat) (fuel : Nat) (rs : Nat → Nat) : Option Grid :=
  (genLoopF width height fuel (markVisited (initGrid width height) 0 0) [(0, 0)] rs).map
    (clearVisited width height)

theorem setWalls_eval (g : Grid) (px py : Nat) (ws : Walls) (y x : Nat) :
    (setWalls g px py ws) y x =
      if x = px ∧ y = py then { g py px with walls := ws } else g y x := rfl


theorem removeWall_east_eval (g : Grid) (x y y' x' : Nat) :
    (removeWall g (x, y) (x + 1, y)) y' x' =
      if x' = x ∧ y' = y then { g y x with walls := { (g y x).walls with e := false } }
      else if x' = x + 1 ∧ y' = y then
        { g y (x + 1) with walls := { (g y (x + 1)).walls with w := false } }
      else g y' x' := by
  have hdx : (((x + 1, y).1 : Nat) : Int) - (((x, y).1 : Nat) : Int) = 1 := by simp
  simp only [removeWall]
  rw [if_pos hdx]
  simp only [setWalls_eval]
  split_ifs <;> first | rfl | (exfalso; omega)

theorem removeWall_west_eval (g : Grid) (x y y' x' : Nat) (hx : 0 < x) :
    (removeWall g (x, y) (x - 1, y)) y' x' =
      if x' = x ∧ y' = y then { g y x with walls := { (g y x).walls with w := false } }
      else if x' = x - 1 ∧ y' = y then
        { g y (x - 1) with walls := { (g y (x - 1)).walls with e := false } }
      else g y' x' := by
  have h1 : ¬((((x - 1, y).1 : Nat) : Int) - (((x, y).1 : Nat) : Int) = 1) := by
    simp only; omega
  have h2 : (((x - 1, y).1 : Nat) : Int) - (((x, y).1 : Nat) : Int) = -1 := by
    simp only; omega
  simp only [removeWall]
  rw [if_neg h1, if_pos h2]
  simp only [setWalls_eval]
  split_ifs <;> first | rfl | (exfalso; omega)

theorem removeWall_south_eval (g : Grid) (x y y' x' : Nat) :
    (removeWall g (x, y) (x, y + 1)) y' x' =
      if x' = x ∧ y' = y then { g y x with walls := { (g y x).walls with s := false } }
      else if x' = x ∧ y' = y + 1 then
        { g (y + 1) x with walls := { (g (y + 1) x).walls with n := false } }
      else g y' x' := by
  have h1 : ¬((((x, y + 1).1 : Nat) : Int) - (((x, y).1 : Nat) : Int) = 1) := by
    simp only; omega
  have h2 : ¬((((x, y + 1).1 : Nat) : Int) - (((x, y).1 : Nat) : Int) = -1) := by
    simp only; omega
  have h3 : (((x, y + 1).2 : Nat) : Int) - (((x, y).2 : Nat) : Int) = 1 := by
    simp only; omega
  simp only [removeWall]
  rw [if_neg h1, if_neg h2, if_pos h3]
  simp only [setWalls_eval]
  split_ifs <;> first | rfl | (exfalso; omega)

theorem removeWall_north_eval (g : Grid) (x y y' x' : Nat) (hy : 0 < y) :
    (removeWall g (x, y) (x, y - 1)) y' x' =
      if x' = x ∧ y' = y then { g y x with walls := { (g y x).walls with n := false } }
      else if x' = x ∧ y' = y - 1 then
        { g (y - 1) x with walls := { (g (y - 1) x).walls with s := false } }
      else g y' x' := by
  have h1 : ¬((((x, y - 1).1 : Nat) : Int) - (((x, y).1 : Nat) : Int) = 1) := by
    simp only; omega
  have h2 : ¬((((x, y - 1).1 : Nat) : Int) - (((x, y).1 : Nat) : Int) = -1) := by
    simp only; omega
  have h3 : ¬((((x, y - 1).2 : Nat) : Int) - (((x, y).2 : Nat) : Int) = 1) := by
    simp only; omega
  have h4 : (((x, y - 1).2 : Nat) : Int) - (((x, y).2 : Nat) : Int) = -1 := by
    simp only; omega
  simp only [removeWall]
  rw [if_neg h1, if_neg h2, if_neg h3, if_pos h4]
  simp only [setWalls_eval]
  split_ifs <;> first | rfl | (exfalso; omega)

/-- One open adjacency: `p` and `q` are in-bounds, grid-adjacent, and the
wall flag of `p` on the side facing `q` is clear. -/
def openStep (width height : Nat) (g : Grid) (p q : Nat × Nat) : Prop :=
  p.1 < width ∧ p.2 < height ∧ q.1 < width ∧ q.2 < height ∧
  ((q.1 = p.1 + 1 ∧ q.2 = p.2 ∧ (g p.2 p.1).walls.e = false) ∨
   (p.1 = q.1 + 1 ∧ q.2 = p.2 ∧ (g p.2 p.1).walls.w = false) ∨
   (q.2 = p.2 + 1 ∧ q.1 = p.1 ∧ (g p.2 p.1).walls.s = false) ∨
   (p.2 = q.2 + 1 ∧ q.1 = p.1 ∧ (g p.2 p.1).walls.n = false))

/-- Reachability through open adjacencies. -/
def Reachable (width height : Nat) (g : Grid) : Nat × Nat → Nat × Nat → Prop :=
  Relation.ReflTransGen (openStep width height g)

/-- Number of open adjacencies of the grid graph, each unordered edge
counted once: horizontal edges at their west endpoint (a clear `e` flag
with an in-bounds east neighbor), vertical edges at their north endpoint
(a clear `s` flag with an in-bounds south neighbor). -/
def edgeCount (width height : Nat) (g : Grid) : Nat :=
  ((posFinset width height).filter
    (fun p => p.1 + 1 < width ∧ (g p.2 p.1).walls.e = false)).card +
  ((posFinset width height).filter
    (fun p => p.2 + 1 < height ∧ (g p.2 p.1).walls.s = false)).card

/-- Wall symmetry across every vertical interior boundary: the `e` flag of
`(x, y)` agrees with the `w` flag of `(x+1, y)`. -/
def wallSymmE (width height : Nat) (g : Grid) : Prop :=
  ∀ x y : Nat, x + 1 < width → y < height → (g y x).walls.e = (g y (x + 1)).walls.w

/-- Wall symmetry across every horizontal interior boundary: the `s` flag
of `(x, y)` agrees with the `n` flag of `(x, y+1)`. -/
def wallSymmS (width height : Nat) (g : Grid) : Prop :=
  ∀ x y : Nat, x < width → y + 1 < height → (g y x).walls.s = (g (y + 1) x).walls.n

/-- Wall symmetry (claim C2): each shared wall is one boolean, never set
on one side and clear on the other. -/
def wallSymm (width height : Nat) (g : Grid) : Prop :=
  wallSymmE width height g ∧ wallSymmS width height g

/-- Every border cell keeps its outward-facing wall flag set. -/
def borderWalls (width height : Nat) (g : Grid) : Prop :=
  (∀ x, x < width → (g 0 x).walls.n = true ∧ (g (height - 1) x).walls.s = true) ∧
  (∀ y, y < height → (g y 0).walls.w = true ∧ (g y (width - 1)).walls.e = true)

/-- The perfect-maze property of the spec: the open-adjacency graph on the
`width × height` cells is connected (every cell reachable from the start
cell `(0,0)`) and has exactly `width * height - 1` edges. -/
def SpanningTree (width height : Nat) (g : Grid) : Prop :=
  (∀ p : Nat × Nat, p.1 < width → p.2 < height → Reachable width height g (0, 0) p) ∧
  edgeCount width height g = width * height - 1

/-- The invariant of the carving loop, relating the current grid and
stack. `offstack_done` records that a visited cell that has left the
stack kept no unvisited neighbor; `ecount` is the tree edge count;
`open_vis` confines carved openings to visited cells. -/
structure Inv (width height : Nat) (g : Grid) (stack : List (Nat × Nat)) : Prop where
  coords : ∀ x y : Nat, (g y x).x = x ∧ (g y x).y = y
  stack_bounds : ∀ p ∈ stack, p.1 < width ∧ p.2 < height
  stack_visited : ∀ p ∈ stack, visitedAt g p.1 p.2 = true
  origin_visited : visitedAt g 0 0 = true
  offstack_done : ∀ p : Nat × Nat, p.1 < width → p.2 < height →
    visitedAt g p.1 p.2 = true → p ∉ stack →
    getUnvisitedNeighbors width height g p.1 p.2 = []
  reach : ∀ p : Nat × Nat, p.1 < width → p.2 < height →
    visitedAt g p.1 p.2 = true → Reachable width height g (0, 0) p
  open_vis : ∀ p q : Nat × Nat, openStep width height g p q →
    visitedAt g p.1 p.2 = true ∧ visitedAt g q.1 q.2 = true
  ecount : edgeCount width height g + 1 = visitedCount width height g
  symmE : wallSymmE width height g
  symmS : wallSymmS width height g
  border : borderWalls width height g

theorem visitedAt_step (g : Grid) (cur next : Nat × Nat) (x y : Nat) :
    visitedAt (markVisited (removeWall g cur next) next.1 next.2) x y =
      if x = next.1 ∧ y = next.2 then true else visitedAt g x y := by
  simp only [visitedAt_markVisited, visitedAt_removeWall]

theorem getUnvisitedNeighbors_eq_nil {width height : Nat} {g : Grid} {x y : Nat} :
    getUnvisitedNeighbors width height g x y = [] ↔
      (¬(0 < y ∧ isUnvisitedAt g x (y - 1) = true)) ∧
      (¬(x + 1 < width ∧ isUnvisitedAt g (x + 1) y = true)) ∧
      (¬(y + 1 < height ∧ isUnvisitedAt g x (y + 1) = true)) ∧
      (¬(0 < x ∧ isUnvisitedAt g (x - 1) y = true)) := by
  unfold getUnvisitedNeighbors
  constructor
  · intro h
    simp only [List.append_eq_nil] at h
    obtain ⟨⟨⟨h1, h2⟩, h3⟩, h4⟩ := h
    refine ⟨?_, ?_, ?_, ?_⟩ <;> intro hc
    · rw [if_pos ⟨hc.1, hc.2⟩] at h1; exact List.cons_ne_nil _ _ h1
    · rw [if_pos ⟨hc.1, hc.2⟩] at h2; exact List.cons_ne_nil _ _ h2
    · rw [if_pos ⟨hc.1, hc.2⟩] at h3; exact List.cons_ne_nil _ _ h3
    · rw [if_pos ⟨hc.1, hc.2⟩] at h4; exact List.cons_ne_nil _ _ h4
  · rintro ⟨h1, h2, h3, h4⟩
    rw [if_neg (by tauto), if_neg (by tauto), if_neg (by tauto), if_neg (by tauto)]
    rfl

theorem isUnvisitedAt_step_mono (g : Grid) (cur next : Nat × Nat) {x y : Nat}
    (h : isUnvisitedAt (markVisited (removeWall g cur next) next.1 next.2) x y = true) :
    isUnvisitedAt g x y = true := by
  rw [isUnvisitedAt_step] at h
  by_cases he : x = next.1 ∧ y = next.2
  · rw [if_pos he] at h; cases h
  · rwa [if_neg he] at h

theorem getUnvisitedNeighbors_nil_step {width height : Nat} {g : Grid}
    (cur next : Nat × Nat) {x y : Nat}
    (h : getUnvisitedNeighbors width height g x y = []) :
    getUnvisitedNeighbors width height
      (markVisited (removeWall g cur next) next.1 next.2) x y = [] := by
  rw [getUnvisitedNeighbors_eq_nil] at h ⊢
  obtain ⟨h1, h2, h3, h4⟩ := h
  exact ⟨fun hc => h1 ⟨hc.1, isUnvisitedAt_step_mono g cur next hc.2⟩,
    fun hc => h2 ⟨hc.1, isUnvisitedAt_step_mono g cur next hc.2⟩,
    fun hc => h3 ⟨hc.1, isUnvisitedAt_step_mono g cur next hc.2⟩,
    fun hc => h4 ⟨hc.1, isUnvisitedAt_step_mono g cur next hc.2⟩⟩

theorem visitedCount_step (width height : Nat) (g : Grid) (cur next : Nat × Nat)
    (hx : next.1 < width) (hy : next.2 < height)
    (hu : visitedAt g next.1 next.2 = false) :
    visitedCount width height (markVisited (removeWall g cur next) next.1 next.2) =
      visitedCount width height g + 1 := by
  unfold visitedCount
  have hset : (posFinset width height).filter
      (fun p => visitedAt (markVisited (removeWall g cur next) next.1 next.2) p.1 p.2 = true) =
      insert next ((posFinset width height).filter (fun p => visitedAt g p.1 p.2 = true)) := by
    ext p
    rw [Finset.mem_insert, Finset.mem_filter, Finset.mem_filter, mem_posFinset]
    constructor
    · rintro ⟨hb, hv⟩
      rw [visitedAt_step] at hv
      by_cases he : p.1 = next.1 ∧ p.2 = next.2
      · exact Or.inl (Prod.ext he.1 he.2)
      · rw [if_neg he] at hv
        exact Or.inr ⟨hb, hv⟩
    · rintro (he | ⟨hb, hv⟩)
      · subst he
        rw [visitedAt_step, if_pos ⟨rfl, rfl⟩]
        exact ⟨⟨hx, hy⟩, rfl⟩
      · rw [visitedAt_step]
        by_cases he : p.1 = next.1 ∧ p.2 = next.2
        · rw [if_pos he]; exact ⟨hb, rfl⟩
        · rw [if_neg he]; exact ⟨hb, hv⟩
  rw [hset, Finset.card_insert_of_not_mem]
  rw [Finset.mem_filter]
  rintro ⟨-, hv⟩
  rw [hu] at hv
  cases hv

/-- Backtracking (`stack.pop()`) preserves the loop invariant. -/
theorem Inv_pop {width height : Nat} {g : Grid} {cur : Nat × Nat}
    {rest : List (Nat × Nat)} (hinv : Inv width height g (cur :: rest))
    (hnil : getUnvisitedNeighbors width height g cur.1 cur.2 = []) :
    Inv width height g rest := by
  refine ⟨hinv.coords, ?_, ?_, hinv.origin_visited, ?_, hinv.reach, hinv.open_vis,
    hinv.ecount, hinv.symmE, hinv.symmS, hinv.border⟩
  · exact fun p hp => hinv.stack_bounds p (List.mem_cons_of_mem _ hp)
  · exact fun p hp => hinv.stack_visited p (List.mem_cons_of_mem _ hp)
  · intro p h1 h2 h3 hnotin
    by_cases he : p = cur
    · subst he; exact hnil
    · exact hinv.offstack_done p h1 h2 h3 (by
        intro hc
        rcases List.mem_cons.mp hc with h | h
        · exact he h
        · exact hnotin h)

theorem visitedAt_step_mono (g : Grid) (cur next : Nat × Nat) {x y : Nat}
    (h : visitedAt g x y = true) :
    visitedAt (markVisited (removeWall g cur next) next.1 next.2) x y = true := by
  rw [visitedAt_step]
  by_cases he : x = next.1 ∧ y = next.2
  · rw [if_pos he]
  · rwa [if_neg he]

/-- Carving to an unvisited neighbor preserves the loop invariant, given
the direction-specific facts about the freshly carved grid. -/
theorem Inv_push {width height : Nat} {g : Grid} {cur next : Nat × Nat}
    {rest : List (Nat × Nat)}
    (hinv : Inv width height g (cur :: rest))
    (hnx : next.1 < width) (hny : next.2 < height)
    (hnu : visitedAt g next.1 next.2 = false)
    (hA : openStep width height (markVisited (removeWall g cur next) next.1 next.2) cur next)
    (hB : ∀ p q : Nat × Nat,
      openStep width height (markVisited (removeWall g cur next) next.1 next.2) p q →
      openStep width height g p q ∨ (p = cur ∧ q = next) ∨ (p = next ∧ q = cur))
    (hC : edgeCount width height (markVisited (removeWall g cur next) next.1 next.2) =
      edgeCount width height g + 1)
    (hD : wallSymmE width height (markVisited (removeWall g cur next) next.1 next.2))
    (hE : wallSymmS width height (markVisited (removeWall g cur next) next.1 next.2))
    (hF : borderWalls width height (markVisited (removeWall g cur next) next.1 next.2))
    (hG : ∀ p q : Nat × Nat, openStep width height g p q →
      openStep width height (markVisited (removeWall g cur next) next.1 next.2) p q) :
    Inv width height (markVisited (removeWall g cur next) next.1 next.2)
      (next :: cur :: rest) := by
  have hcur : cur ∈ cur :: rest := List.mem_cons_self _ _
  refine ⟨?_, ?_, ?_, ?_, ?_, ?_, ?_, ?_, hD, hE, hF⟩
  · intro x y
    constructor
    · rw [(markVisited_coords _ _ _ _ _).1, (removeWall_coords _ _ _ _ _).1]
      exact (hinv.coords x y).1
    · rw [(markVisited_coords _ _ _ _ _).2, (removeWall_coords _ _ _ _ _).2]
      exact (hinv.coords x y).2
  · intro p hp
    rcases List.mem_cons.mp hp with he | hp'
    · subst he; exact ⟨hnx, hny⟩
    · exact hinv.stack_bounds p hp'
  · intro p hp
    rcases List.mem_cons.mp hp with he | hp'
    · subst he
      rw [visitedAt_step, if_pos ⟨rfl, rfl⟩]
    · exact visitedAt_step_mono g cur next (hinv.stack_visited p hp')
  · exact visitedAt_step_mono g cur next hinv.origin_visited
  · intro p h1 h2 h3 hnotin
    have hpn : p ≠ next := fun he => hnotin (he ▸ List.mem_cons_self _ _)
    have hpc : p ∉ cur :: rest := fun hc => hnotin (List.mem_cons_of_mem _ hc)
    have h3' : visitedAt g p.1 p.2 = true := by
      rw [visitedAt_step] at h3
      by_cases he : p.1 = next.1 ∧ p.2 = next.2
      · exact absurd (Prod.ext he.1 he.2) hpn
      · rwa [if_neg he] at h3
    exact getUnvisitedNeighbors_nil_step cur next
      (hinv.offstack_done p h1 h2 h3' hpc)
  · intro p h1 h2 h3
    by_cases he : p.1 = next.1 ∧ p.2 = next.2
    · have hp : p = next := Prod.ext he.1 he.2
      subst hp
      have hc := hinv.stack_bounds cur hcur
      have hrc : Reachable width height g (0, 0) cur :=
        hinv.reach cur hc.1 hc.2 (hinv.stack_visited cur hcur)
      exact Relation.ReflTransGen.tail (Relation.ReflTransGen.mono hG hrc) hA
    · have h3' : visitedAt g p.1 p.2 = true := by
        rw [visitedAt_step, if_neg he] at h3
        exact h3
      exact Relation.ReflTransGen.mono hG (hinv.reach p h1 h2 h3')
  · intro p q hpq
    rcases hB p q hpq with hold | ⟨rfl, rfl⟩ | ⟨rfl, rfl⟩
    · obtain ⟨hv1, hv2⟩ := hinv.open_vis p q hold
      exact ⟨visitedAt_step_mono g cur next hv1, visitedAt_step_mono g cur next hv2⟩
    · exact ⟨visitedAt_step_mono g p q (hinv.stack_visited p hcur),
        by rw [visitedAt_step, if_pos ⟨rfl, rfl⟩]⟩
    · exact ⟨by rw [visitedAt_step, if_pos ⟨rfl, rfl⟩],
        visitedAt_step_mono g q p (hinv.stack_visited q hcur)⟩
  · rw [hC, visitedCount_step width height g cur next hnx hny hnu]
    have := hinv.ecount
    omega

theorem step_walls_east (g : Grid) (cx cy y x : Nat) :
    ((markVisited (removeWall g (cx, cy) (cx + 1, cy)) (cx + 1) cy) y x).walls =
      if x = cx ∧ y = cy then { (g cy cx).walls with e := false }
      else if x = cx + 1 ∧ y = cy then { (g cy (cx + 1)).walls with w := false }
      else (g y x).walls := by
  rw [markVisited_walls, removeWall_east_eval]
  split_ifs <;> rfl

theorem step_open_mono_east {width height : Nat} (g : Grid) (cx cy : Nat) :
    ∀ p q : Nat × Nat, openStep width height g p q →
      openStep width height (markVisited (removeWall g (cx, cy) (cx + 1, cy)) (cx + 1) cy) p q := by
  rintro p q ⟨b1, b2, b3, b4, hd⟩
  refine ⟨b1, b2, b3, b4, ?_⟩
  have hw := step_walls_east g cx cy p.2 p.1
  rcases hd with ⟨e1, e2, e3⟩ | ⟨e1, e2, e3⟩ | ⟨e1, e2, e3⟩ | ⟨e1, e2, e3⟩
  · exact Or.inl ⟨e1, e2, by rw [hw]; split_ifs <;> simp_all⟩
  · exact Or.inr (Or.inl ⟨e1, e2, by rw [hw]; split_ifs <;> simp_all⟩)
  · exact Or.inr (Or.inr (Or.inl ⟨e1, e2, by rw [hw]; split_ifs <;> simp_all⟩))
  · exact Or.inr (Or.inr (Or.inr ⟨e1, e2, by rw [hw]; split_ifs <;> simp_all⟩))

theorem step_open_new_east {width height : Nat} (g : Grid) (cx cy : Nat)
    (hcx : cx < width) (hcy : cy < height) (hb : cx + 1 < width) :
    openStep width height (markVisited (removeWall g (cx, cy) (cx + 1, cy)) (cx + 1) cy)
      (cx, cy) (cx + 1, cy) := by
  refine ⟨hcx, hcy, hb, hcy, Or.inl ⟨rfl, rfl, ?_⟩⟩
  rw [step_walls_east, if_pos ⟨rfl, rfl⟩]

theorem step_open_char_east {width height : Nat} (g : Grid) (cx cy : Nat) :
    ∀ p q : Nat × Nat,
      openStep width height (markVisited (removeWall g (cx, cy) (cx + 1, cy)) (cx + 1) cy) p q →
      openStep width height g p q ∨ (p = (cx, cy) ∧ q = (cx + 1, cy)) ∨
        (p = (cx + 1, cy) ∧ q = (cx, cy)) := by
  intro p q h
  by_cases hpq1 : p = (cx, cy) ∧ q = (cx + 1, cy)
  · exact Or.inr (Or.inl hpq1)
  by_cases hpq2 : p = (cx + 1, cy) ∧ q = (cx, cy)
  · exact Or.inr (Or.inr hpq2)
  left
  obtain ⟨b1, b2, b3, b4, hd⟩ := h
  refine ⟨b1, b2, b3, b4, ?_⟩
  have hw := step_walls_east g cx cy p.2 p.1
  rcases hd with ⟨e1, e2, e3⟩ | ⟨e1, e2, e3⟩ | ⟨e1, e2, e3⟩ | ⟨e1, e2, e3⟩
  · refine Or.inl ⟨e1, e2, ?_⟩
    rw [hw] at e3
    split_ifs at e3 with h1 h2
    · exfalso
      exact hpq1 ⟨Prod.ext h1.1 h1.2, Prod.ext (by omega) (by omega)⟩
    · have : (g cy (cx + 1)).walls.e = false := by simpa using e3
      rw [h2.1, h2.2]
      exact this
    · exact e3
  · refine Or.inr (Or.inl ⟨e1, e2, ?_⟩)
    rw [hw] at e3
    split_ifs at e3 with h1 h2
    · have : (g cy cx).walls.w = false := by simpa using e3
      rw [h1.1, h1.2]
      exact this
    · exfalso
      exact hpq2 ⟨Prod.ext h2.1 h2.2, Prod.ext (by omega) (by omega)⟩
    · exact e3
  · refine Or.inr (Or.inr (Or.inl ⟨e1, e2, ?_⟩))
    rw [hw] at e3
    split_ifs at e3 with h1 h2
    · have : (g cy cx).walls.s = false := by simpa using e3
      rw [h1.1, h1.2]
      exact this
    · have : (g cy (cx + 1)).walls.s = false := by simpa using e3
      rw [h2.1, h2.2]
      exact this
    · exact e3
  · refine Or.inr (Or.inr (Or.inr ⟨e1, e2, ?_⟩))
    rw [hw] at e3
    split_ifs at e3 with h1 h2
    · have : (g cy cx).walls.n = false := by simpa using e3
      rw [h1.1, h1.2]
      exact this
    · have : (g cy (cx + 1)).walls.n = false := by simpa using e3
      rw [h2.1, h2.2]
      exact this
    · exact e3

theorem step_edgeCount_east {width height : Nat} (g : Grid) (cx cy : Nat)
    (hcy : cy < height) (hb : cx + 1 < width)
    (he : (g cy cx).walls.e = true) :
    edgeCount width height (markVisited (removeWall g (cx, cy) (cx + 1, cy)) (cx + 1) cy) =
      edgeCount width height g + 1 := by
  unfold edgeCount
  have h1 : ((posFinset width height).filter (fun p =>
        p.1 + 1 < width ∧
        ((markVisited (removeWall g (cx, cy) (cx + 1, cy)) (cx + 1) cy) p.2 p.1).walls.e =
          false)) =
      insert ((cx, cy) : Nat × Nat)
        ((posFinset width height).filter
          (fun p => p.1 + 1 < width ∧ (g p.2 p.1).walls.e = false)) := by
    ext p
    rw [Finset.mem_insert, Finset.mem_filter, Finset.mem_filter, mem_posFinset]
    constructor
    · rintro ⟨hbnd, hlt, hflag⟩
      rw [step_walls_east] at hflag
      split_ifs at hflag with ha hb2
      · exact Or.inl (Prod.ext ha.1 ha.2)
      · refine Or.inr ⟨hbnd, hlt, ?_⟩
        rw [hb2.1, hb2.2]
        simpa using hflag
      · exact Or.inr ⟨hbnd, hlt, hflag⟩
    · rintro (rfl | ⟨hbnd, hlt, hflag⟩)
      · refine ⟨⟨by omega, hcy⟩, hb, ?_⟩
        rw [step_walls_east, if_pos ⟨rfl, rfl⟩]
      · refine ⟨hbnd, hlt, ?_⟩
        rw [step_walls_east]
        split_ifs with ha hb2
        · rfl
        · rw [hb2.1, hb2.2] at hflag
          simpa using hflag
        · exact hflag
  have h2 : ((posFinset width height).filter (fun p =>
        p.2 + 1 < height ∧
        ((markVisited (removeWall g (cx, cy) (cx + 1, cy)) (cx + 1) cy) p.2 p.1).walls.s =
          false)) =
      ((posFinset width height).filter
        (fun p => p.2 + 1 < height ∧ (g p.2 p.1).walls.s = false)) := by
    ext p
    rw [Finset.mem_filter, Finset.mem_filter]
    have hw := step_walls_east g cx cy p.2 p.1
    constructor
    · rintro ⟨hbnd, hlt, hflag⟩
      rw [hw] at hflag
      split_ifs at hflag with ha hb2
      · refine ⟨hbnd, hlt, ?_⟩
        rw [ha.1, ha.2]
        simpa using hflag
      · refine ⟨hbnd, hlt, ?_⟩
        rw [hb2.1, hb2.2]
        simpa using hflag
      · exact ⟨hbnd, hlt, hflag⟩
    · rintro ⟨hbnd, hlt, hflag⟩
      refine ⟨hbnd, hlt, ?_⟩
      rw [hw]
      split_ifs with ha hb2
      · rw [ha.1, ha.2] at hflag
        simpa using hflag
      · rw [hb2.1, hb2.2] at hflag
        simpa using hflag
      · exact hflag
  rw [h1, h2, Finset.card_insert_of_not_mem]
  · omega
  · rw [Finset.mem_filter]
    rintro ⟨-, -, hflag⟩
    rw [he] at hflag
    cases hflag


theorem step_walls_e_east (g : Grid) (cx cy y x : Nat) :
    ((markVisited (removeWall g (cx, cy) (cx + 1, cy)) (cx + 1) cy) y x).walls.e =
      if x = cx ∧ y = cy then false else (g y x).walls.e := by
  rw [step_walls_east]
  by_cases h1 : x = cx ∧ y = cy
  · rw [if_pos h1, if_pos h1]
  · rw [if_neg h1, if_neg h1]
    by_cases h2 : x = cx + 1 ∧ y = cy
    · rw [if_pos h2, h2.1, h2.2]
    · rw [if_neg h2]

theorem step_walls_w_east (g : Grid) (cx cy y x : Nat) :
    ((markVisited (removeWall g (cx, cy) (cx + 1, cy)) (cx + 1) cy) y x).walls.w =
      if x = cx + 1 ∧ y = cy then false else (g y x).walls.w := by
  rw [step_walls_east]
  by_cases h1 : x = cx ∧ y = cy
  · rw [if_pos h1, if_neg (by omega : ¬(x = cx + 1 ∧ y = cy)), h1.1, h1.2]
  · rw [if_neg h1]
    by_cases h2 : x = cx + 1 ∧ y = cy
    · rw [if_pos h2, if_pos h2]
    · rw [if_neg h2, if_neg h2]

theorem step_walls_s_east (g : Grid) (cx cy y x : Nat) :
    ((markVisited (removeWall g (cx, cy) (cx + 1, cy)) (cx + 1) cy) y x).walls.s =
      (g y x).walls.s := by
  rw [step_walls_east]
  by_cases h1 : x = cx ∧ y = cy
  · rw [if_pos h1, h1.1, h1.2]
  · rw [if_neg h1]
    by_cases h2 : x = cx + 1 ∧ y = cy
    · rw [if_pos h2, h2.1, h2.2]
    · rw [if_neg h2]

theorem step_walls_n_east (g : Grid) (cx cy y x : Nat) :
    ((markVisited (removeWall g (cx, cy) (cx + 1, cy)) (cx + 1) cy) y x).walls.n =
      (g y x).walls.n := by
  rw [step_walls_east]
  by_cases h1 : x = cx ∧ y = cy
  · rw [if_pos h1, h1.1, h1.2]
  · rw [if_neg h1]
    by_cases h2 : x = cx + 1 ∧ y = cy
    · rw [if_pos h2, h2.1, h2.2]
    · rw [if_neg h2]

theorem step_symmE_east {width height : Nat} (g : Grid) (cx cy : Nat)
    (hsE : wallSymmE width height g) :
    wallSymmE width height (markVisited (removeWall g (cx, cy) (cx + 1, cy)) (cx + 1) cy) := by
  intro x y hx hy
  rw [step_walls_e_east, step_walls_w_east]
  by_cases h1 : x = cx ∧ y = cy
  · rw [if_pos h1, if_pos (by omega : x + 1 = cx + 1 ∧ y = cy)]
  · rw [if_neg h1, if_neg (by omega : ¬(x + 1 = cx + 1 ∧ y = cy))]
    exact hsE x y hx hy

theorem step_symmS_east {width height : Nat} (g : Grid) (cx cy : Nat)
    (hsS : wallSymmS width height g) :
    wallSymmS width height (markVisited (removeWall g (cx, cy) (cx + 1, cy)) (cx + 1) cy) := by
  intro x y hx hy
  rw [step_walls_s_east, step_walls_n_east]
  exact hsS x y hx hy

theorem step_border_east {width height : Nat} (g : Grid) (cx cy : Nat)
    (hb : cx + 1 < width) (hbd : borderWalls width height g) :
    borderWalls width height (markVisited (removeWall g (cx, cy) (cx + 1, cy)) (cx + 1) cy) := by
  obtain ⟨hbd1, hbd2⟩ := hbd
  constructor
  · intro x hx
    rw [step_walls_n_east, step_walls_s_east]
    exact hbd1 x hx
  · intro y hy
    rw [step_walls_w_east, step_walls_e_east]
    rw [if_neg (by omega : ¬((0 : Nat) = cx + 1 ∧ y = cy)),
      if_neg (by omega : ¬(width - 1 = cx ∧ y = cy))]
    exact hbd2 y hy

theorem step_walls_west (g : Grid) (cx cy : Nat) (h0 : 0 < cx) (y x : Nat) :
    ((markVisited (removeWall g (cx, cy) (cx - 1, cy)) (cx - 1) cy) y x).walls =
      if x = cx ∧ y = cy then { (g cy cx).walls with w := false }
      else if x = cx - 1 ∧ y = cy then { (g cy (cx - 1)).walls with e := false }
      else (g y x).walls := by
  rw [markVisited_walls, removeWall_west_eval g cx cy y x h0]
  split_ifs <;> rfl

theorem step_walls_e_west (g : Grid) (cx cy : Nat) (h0 : 0 < cx) (y x : Nat) :
    ((markVisited (removeWall g (cx, cy) (cx - 1, cy)) (cx - 1) cy) y x).walls.e =
      if x = cx - 1 ∧ y = cy then false else (g y x).walls.e := by
  rw [step_walls_west g cx cy h0]
  by_cases h1 : x = cx ∧ y = cy
  · rw [if_pos h1, if_neg (by omega : ¬(x = cx - 1 ∧ y = cy)), h1.1, h1.2]
  · rw [if_neg h1]
    by_cases h2 : x = cx - 1 ∧ y = cy
    · rw [if_pos h2, if_pos h2]
    · rw [if_neg h2, if_neg h2]

theorem step_walls_w_west (g : Grid) (cx cy : Nat) (h0 : 0 < cx) (y x : Nat) :
    ((markVisited (removeWall g (cx, cy) (cx - 1, cy)) (cx - 1) cy) y x).walls.w =
      if x = cx ∧ y = cy then false else (g y x).walls.w := by
  rw [step_walls_west g cx cy h0]
  by_cases h1 : x = cx ∧ y = cy
  · rw [if_pos h1, if_pos h1]
  · rw [if_neg h1, if_neg h1]
    by_cases h2 : x = cx - 1 ∧ y = cy
    · rw [if_pos h2, h2.1, h2.2]
    · rw [if_neg h2]

theorem step_walls_s_west (g : Grid) (cx cy : Nat) (h0 : 0 < cx) (y x : Nat) :
    ((markVisited (removeWall g (cx, cy) (cx - 1, cy)) (cx - 1) cy) y x).walls.s =
      (g y x).walls.s := by
  rw [step_walls_west g cx cy h0]
  by_cases h1 : x = cx ∧ y = cy
  · rw [if_pos h1, h1.1, h1.2]
  · rw [if_neg h1]
    by_cases h2 : x = cx - 1 ∧ y = cy
    · rw [if_pos h2, h2.1, h2.2]
    · rw [if_neg h2]

theorem step_walls_n_west (g : Grid) (cx cy : Nat) (h0 : 0 < cx) (y x : Nat) :
    ((markVisited (removeWall g (cx, cy) (cx - 1, cy)) (cx - 1) cy) y x).walls.n =
      (g y x).walls.n := by
  rw [step_walls_west g cx cy h0]
  by_cases h1 : x = cx ∧ y = cy
  · rw [if_pos h1, h1.1, h1.2]
  · rw [if_neg h1]
    by_cases h2 : x = cx - 1 ∧ y = cy
    · rw [if_pos h2, h2.1, h2.2]
    · rw [if_neg h2]

theorem step_open_new_west {width height : Nat} (g : Grid) (cx cy : Nat)
    (hcx : cx < width) (hcy : cy < height) (h0 : 0 < cx) :
    openStep width height (markVisited (removeWall g (cx, cy) (cx - 1, cy)) (cx - 1) cy)
      (cx, cy) (cx - 1, cy) := by
  refine ⟨hcx, hcy, by omega, hcy, Or.inr (Or.inl ⟨by omega, rfl, ?_⟩)⟩
  rw [step_walls_w_west g cx cy h0, if_pos ⟨rfl, rfl⟩]

theorem step_open_mono_west {width height : Nat} (g : Grid) (cx cy : Nat) (h0 : 0 < cx) :
    ∀ p q : Nat × Nat, openStep width height g p q →
      openStep width height (markVisited (removeWall g (cx, cy) (cx - 1, cy)) (cx - 1) cy) p q := by
  rintro p q ⟨b1, b2, b3, b4, hd⟩
  refine ⟨b1, b2, b3, b4, ?_⟩
  rcases hd with ⟨e1, e2, e3⟩ | ⟨e1, e2, e3⟩ | ⟨e1, e2, e3⟩ | ⟨e1, e2, e3⟩
  · exact Or.inl ⟨e1, e2, by rw [step_walls_e_west g cx cy h0]; split_ifs <;> simp_all⟩
  · exact Or.inr (Or.inl ⟨e1, e2,
      by rw [step_walls_w_west g cx cy h0]; split_ifs <;> simp_all⟩)
  · exact Or.inr (Or.inr (Or.inl ⟨e1, e2, by rw [step_walls_s_west g cx cy h0]; exact e3⟩))
  · exact Or.inr (Or.inr (Or.inr ⟨e1, e2, by rw [step_walls_n_west g cx cy h0]; exact e3⟩))

theorem step_open_char_west {width height : Nat} (g : Grid) (cx cy : Nat) (h0 : 0 < cx) :
    ∀ p q : Nat × Nat,
      openStep width height (markVisited (removeWall g (cx, cy) (cx - 1, cy)) (cx - 1) cy) p q →
      openStep width height g p q ∨ (p = (cx, cy) ∧ q = (cx - 1, cy)) ∨
        (p = (cx - 1, cy) ∧ q = (cx, cy)) := by
  intro p q h
  by_cases hpq1 : p = (cx, cy) ∧ q = (cx - 1, cy)
  · exact Or.inr (Or.inl hpq1)
  by_cases hpq2 : p = (cx - 1, cy) ∧ q = (cx, cy)
  · exact Or.inr (Or.inr hpq2)
  left
  obtain ⟨b1, b2, b3, b4, hd⟩ := h
  refine ⟨b1, b2, b3, b4, ?_⟩
  rcases hd with ⟨e1, e2, e3⟩ | ⟨e1, e2, e3⟩ | ⟨e1, e2, e3⟩ | ⟨e1, e2, e3⟩
  · refine Or.inl ⟨e1, e2, ?_⟩
    rw [step_walls_e_west g cx cy h0] at e3
    split_ifs at e3 with h1
    · exfalso
      exact hpq2 ⟨Prod.ext h1.1 h1.2, Prod.ext (by omega) (by omega)⟩
    · exact e3
  · refine Or.inr (Or.inl ⟨e1, e2, ?_⟩)
    rw [step_walls_w_west g cx cy h0] at e3
    split_ifs at e3 with h1
    · exfalso
      exact hpq1 ⟨Prod.ext h1.1 h1.2, Prod.ext (by omega) (by omega)⟩
    · exact e3
  · exact Or.inr (Or.inr (Or.inl ⟨e1, e2,
      by rw [step_walls_s_west g cx cy h0] at e3; exact e3⟩))
  · exact Or.inr (Or.inr (Or.inr ⟨e1, e2,
      by rw [step_walls_n_west g cx cy h0] at e3; exact e3⟩))

theorem step_symmE_west {width height : Nat} (g : Grid) (cx cy : Nat) (h0 : 0 < cx)
    (hsE : wallSymmE width height g) :
    wallSymmE width height (markVisited (removeWall g (cx, cy) (cx - 1, cy)) (cx - 1) cy) := by
  intro x y hx hy
  rw [step_walls_e_west g cx cy h0, step_walls_w_west g cx cy h0]
  by_cases h1 : x = cx - 1 ∧ y = cy
  · rw [if_pos h1, if_pos (by omega : x + 1 = cx ∧ y = cy)]
  · rw [if_neg h1, if_neg (by omega : ¬(x + 1 = cx ∧ y = cy))]
    exact hsE x y hx hy

theorem step_symmS_west {width height : Nat} (g : Grid) (cx cy : Nat) (h0 : 0 < cx)
    (hsS : wallSymmS width height g) :
    wallSymmS width height (markVisited (removeWall g (cx, cy) (cx - 1, cy)) (cx - 1) cy) := by
  intro x y hx hy
  rw [step_walls_s_west g cx cy h0, step_walls_n_west g cx cy h0]
  exact hsS x y hx hy

theorem step_border_west {width height : Nat} (g : Grid) (cx cy : Nat)
    (hcx : cx < width) (h0 : 0 < cx) (hbd : borderWalls width height g) :
    borderWalls width height (markVisited (removeWall g (cx, cy) (cx - 1, cy)) (cx - 1) cy) := by
  obtain ⟨hbd1, hbd2⟩ := hbd
  constructor
  · intro x hx
    rw [step_walls_n_west g cx cy h0, step_walls_s_west g cx cy h0]
    exact hbd1 x hx
  · intro y hy
    rw [step_walls_w_west g cx cy h0, step_walls_e_west g cx cy h0]
    rw [if_neg (by omega : ¬((0 : Nat) = cx ∧ y = cy)),
      if_neg (by omega : ¬(width - 1 = cx - 1 ∧ y = cy))]
    exact hbd2 y hy

theorem step_edgeCount_west {width height : Nat} (g : Grid) (cx cy : Nat)
    (hcx : cx < width) (hcy : cy < height) (h0 : 0 < cx)
    (he : (g cy (cx - 1)).walls.e = true) :
    edgeCount width height (markVisited (removeWall g (cx, cy) (cx - 1, cy)) (cx - 1) cy) =
      edgeCount width height g + 1 := by
  unfold edgeCount
  have h1 : ((posFinset width height).filter (fun p =>
        p.1 + 1 < width ∧
        ((markVisited (removeWall g (cx, cy) (cx - 1, cy)) (cx - 1) cy) p.2 p.1).walls.e =
          false)) =
      insert ((cx - 1, cy) : Nat × Nat)
        ((posFinset width height).filter
          (fun p => p.1 + 1 < width ∧ (g p.2 p.1).walls.e = false)) := by
    ext p
    rw [Finset.mem_insert, Finset.mem_filter, Finset.mem_filter, mem_posFinset]
    constructor
    · rintro ⟨hbnd, hlt, hflag⟩
      rw [step_walls_e_west g cx cy h0] at hflag
      split_ifs at hflag with ha
      · exact Or.inl (Prod.ext ha.1 ha.2)
      · exact Or.inr ⟨hbnd, hlt, hflag⟩
    · rintro (rfl | ⟨hbnd, hlt, hflag⟩)
      · refine ⟨⟨by omega, hcy⟩, by omega, ?_⟩
        rw [step_walls_e_west g cx cy h0, if_pos ⟨rfl, rfl⟩]
      · refine ⟨hbnd, hlt, ?_⟩
        rw [step_walls_e_west g cx cy h0]
        split_ifs with ha
        · rfl
        · exact hflag
  have h2 : ((posFinset width height).filter (fun p =>
        p.2 + 1 < height ∧
        ((markVisited (removeWall g (cx, cy) (cx - 1, cy)) (cx - 1) cy) p.2 p.1).walls.s =
          false)) =
      ((posFinset width height).filter
        (fun p => p.2 + 1 < height ∧ (g p.2 p.1).walls.s = false)) := by
    apply Finset.filter_congr
    intro p hp
    rw [step_walls_s_west g cx cy h0]
  rw [h1, h2, Finset.card_insert_of_not_mem]
  · omega
  · rw [Finset.mem_filter]
    rintro ⟨-, -, hflag⟩
    rw [he] at hflag
    cases hflag

theorem step_walls_south (g : Grid) (cx cy : Nat) (y x : Nat) :
    ((markVisited (removeWall g (cx, cy) (cx, cy + 1)) cx (cy + 1)) y x).walls =
      if x = cx ∧ y = cy then { (g cy cx).walls with s := false }
      else if x = cx ∧ y = cy + 1 then { (g (cy + 1) cx).walls with n := false }
      else (g y x).walls := by
  rw [markVisited_walls, removeWall_south_eval]
  split_ifs <;> rfl

theorem step_walls_s_south (g : Grid) (cx cy : Nat) (y x : Nat) :
    ((markVisited (removeWall g (cx, cy) (cx, cy + 1)) cx (cy + 1)) y x).walls.s =
      if x = cx ∧ y = cy then false else (g y x).walls.s := by
  rw [step_walls_south]
  by_cases h1 : x = cx ∧ y = cy
  · rw [if_pos h1, if_pos h1]
  · rw [if_neg h1, if_neg h1]
    by_cases h2 : x = cx ∧ y = cy + 1
    · rw [if_pos h2, h2.1, h2.2]
    · rw [if_neg h2]

theorem step_walls_n_south (g : Grid) (cx cy : Nat) (y x : Nat) :
    ((markVisited (removeWall g (cx, cy) (cx, cy + 1)) cx (cy + 1)) y x).walls.n =
      if x = cx ∧ y = cy + 1 then false else (g y x).walls.n := by
  rw [step_walls_south]
  by_cases h1 : x = cx ∧ y = cy
  · rw [if_pos h1, if_neg (by omega : ¬(x = cx ∧ y = cy + 1)), h1.1, h1.2]
  · rw [if_neg h1]
    by_cases h2 : x = cx ∧ y = cy + 1
    · rw [if_pos h2, if_pos h2]
    · rw [if_neg h2, if_neg h2]

theorem step_walls_e_south (g : Grid) (cx cy : Nat) (y x : Nat) :
    ((markVisited (removeWall g (cx, cy) (cx, cy + 1)) cx (cy + 1)) y x).walls.e =
      (g y x).walls.e := by
  rw [step_walls_south]
  by_cases h1 : x = cx ∧ y = cy
  · rw [if_pos h1, h1.1, h1.2]
  · rw [if_neg h1]
    by_cases h2 : x = cx ∧ y = cy + 1
    · rw [if_pos h2, h2.1, h2.2]
    · rw [if_neg h2]

theorem step_walls_w_south (g : Grid) (cx cy : Nat) (y x : Nat) :
    ((markVisited (removeWall g (cx, cy) (cx, cy + 1)) cx (cy + 1)) y x).walls.w =
      (g y x).walls.w := by
  rw [step_walls_south]
  by_cases h1 : x = cx ∧ y = cy
  · rw [if_pos h1, h1.1, h1.2]
  · rw [if_neg h1]
    by_cases h2 : x = cx ∧ y = cy + 1
    · rw [if_pos h2, h2.1, h2.2]
    · rw [if_neg h2]

theorem step_open_new_south {width height : Nat} (g : Grid) (cx cy : Nat)
    (hcx : cx < width) (hcy : cy < height) (hb : cy + 1 < height) :
    openStep width height (markVisited (removeWall g (cx, cy) (cx, cy + 1)) cx (cy + 1))
      (cx, cy) (cx, cy + 1) := by
  refine ⟨hcx, hcy, hcx, hb, Or.inr (Or.inr (Or.inl ⟨rfl, rfl, ?_⟩))⟩
  rw [step_walls_s_south, if_pos ⟨rfl, rfl⟩]

theorem step_open_mono_south {width height : Nat} (g : Grid) (cx cy : Nat) :
    ∀ p q : Nat × Nat, openStep width height g p q →
      openStep width height (markVisited (removeWall g (cx, cy) (cx, cy + 1)) cx (cy + 1)) p q := by
  rintro p q ⟨b1, b2, b3, b4, hd⟩
  refine ⟨b1, b2, b3, b4, ?_⟩
  rcases hd with ⟨e1, e2, e3⟩ | ⟨e1, e2, e3⟩ | ⟨e1, e2, e3⟩ | ⟨e1, e2, e3⟩
  · exact Or.inl ⟨e1, e2, by rw [step_walls_e_south]; exact e3⟩
  · exact Or.inr (Or.inl ⟨e1, e2, by rw [step_walls_w_south]; exact e3⟩)
  · exact Or.inr (Or.inr (Or.inl ⟨e1, e2,
      by rw [step_walls_s_south]; split_ifs <;> simp_all⟩))
  · exact Or.inr (Or.inr (Or.inr ⟨e1, e2,
      by rw [step_walls_n_south]; split_ifs <;> simp_all⟩))

theorem step_open_char_south {width height : Nat} (g : Grid) (cx cy : Nat) :
    ∀ p q : Nat × Nat,
      openStep width height (markVisited (removeWall g (cx, cy) (cx, cy + 1)) cx (cy + 1)) p q →
      openStep width height g p q ∨ (p = (cx, cy) ∧ q = (cx, cy + 1)) ∨
        (p = (cx, cy + 1) ∧ q = (cx, cy)) := by
  intro p q h
  by_cases hpq1 : p = (cx, cy) ∧ q = (cx, cy + 1)
  · exact Or.inr (Or.inl hpq1)
  by_cases hpq2 : p = (cx, cy + 1) ∧ q = (cx, cy)
  · exact Or.inr (Or.inr hpq2)
  left
  obtain ⟨b1, b2, b3, b4, hd⟩ := h
  refine ⟨b1, b2, b3, b4, ?_⟩
  rcases hd with ⟨e1, e2, e3⟩ | ⟨e1, e2, e3⟩ | ⟨e1, e2, e3⟩ | ⟨e1, e2, e3⟩
  · exact Or.inl ⟨e1, e2, by rw [step_walls_e_south] at e3; exact e3⟩
  · exact Or.inr (Or.inl ⟨e1, e2, by rw [step_walls_w_south] at e3; exact e3⟩)
  · refine Or.inr (Or.inr (Or.inl ⟨e1, e2, ?_⟩))
    rw [step_walls_s_south] at e3
    split_ifs at e3 with h1
    · exfalso
      exact hpq1 ⟨Prod.ext h1.1 h1.2, Prod.ext (by omega) (by omega)⟩
    · exact e3
  · refine Or.inr (Or.inr (Or.inr ⟨e1, e2, ?_⟩))
    rw [step_walls_n_south] at e3
    split_ifs at e3 with h1
    · exfalso
      exact hpq2 ⟨Prod.ext h1.1 h1.2, Prod.ext (by omega) (by omega)⟩
    · exact e3

theorem step_symmE_south {width height : Nat} (g : Grid) (cx cy : Nat)
    (hsE : wallSymmE width height g) :
    wallSymmE width height (markVisited (removeWall g (cx, cy) (cx, cy + 1)) cx (cy + 1)) := by
  intro x y hx hy
  rw [step_walls_e_south, step_walls_w_south]
  exact hsE x y hx hy

theorem step_symmS_south {width height : Nat} (g : Grid) (cx cy : Nat)
    (hsS : wallSymmS width height g) :
    wallSymmS width height (markVisited (removeWall g (cx, cy) (cx, cy + 1)) cx (cy + 1)) := by
  intro x y hx hy
  rw [step_walls_s_south, step_walls_n_south]
  by_cases h1 : x = cx ∧ y = cy
  · rw [if_pos h1, if_pos (by omega : x = cx ∧ y + 1 = cy + 1)]
  · rw [if_neg h1, if_neg (by omega : ¬(x = cx ∧ y + 1 = cy + 1))]
    exact hsS x y hx hy

theorem step_border_south {width height : Nat} (g : Grid) (cx cy : Nat)
    (hb : cy + 1 < height) (hbd : borderWalls width height g) :
    borderWalls width height (markVisited (removeWall g (cx, cy) (cx, cy + 1)) cx (cy + 1)) := by
  obtain ⟨hbd1, hbd2⟩ := hbd
  constructor
  · intro x hx
    rw [step_walls_n_south, step_walls_s_south]
    rw [if_neg (by omega : ¬(x = cx ∧ (0 : Nat) = cy + 1)),
      if_neg (by omega : ¬(x = cx ∧ height - 1 = cy))]
    exact hbd1 x hx
  · intro y hy
    rw [step_walls_w_south, step_walls_e_south]
    exact hbd2 y hy

theorem step_edgeCount_south {width height : Nat} (g : Grid) (cx cy : Nat)
    (hcx : cx < width) (hcy : cy < height) (hb : cy + 1 < height)
    (he : (g cy cx).walls.s = true) :
    edgeCount width height (markVisited (removeWall g (cx, cy) (cx, cy + 1)) cx (cy + 1)) =
      edgeCount width height g + 1 := by
  unfold edgeCount
  have h1 : ((posFinset width height).filter (fun p =>
        p.1 + 1 < width ∧
        ((markVisited (removeWall g (cx, cy) (cx, cy + 1)) cx (cy + 1)) p.2 p.1).walls.e =
          false)) =
      ((posFinset width height).filter
        (fun p => p.1 + 1 < width ∧ (g p.2 p.1).walls.e = false)) := by
    apply Finset.filter_congr
    intro p hp
    rw [step_walls_e_south]
  have h2 : ((posFinset width height).filter (fun p =>
        p.2 + 1 < height ∧
        ((markVisited (removeWall g (cx, cy) (cx, cy + 1)) cx (cy + 1)) p.2 p.1).walls.s =
          false)) =
      insert ((cx, cy) : Nat × Nat)
        ((posFinset width height).filter
          (fun p => p.2 + 1 < height ∧ (g p.2 p.1).walls.s = false)) := by
    ext p
    rw [Finset.mem_insert, Finset.mem_filter, Finset.mem_filter, mem_posFinset]
    constructor
    · rintro ⟨hbnd, hlt, hflag⟩
      rw [step_walls_s_south] at hflag
      split_ifs at hflag with ha
      · exact Or.inl (Prod.ext ha.1 ha.2)
      · exact Or.inr ⟨hbnd, hlt, hflag⟩
    · rintro (rfl | ⟨hbnd, hlt, hflag⟩)
      · refine ⟨⟨hcx, hcy⟩, hb, ?_⟩
        rw [step_walls_s_south, if_pos ⟨rfl, rfl⟩]
      · refine ⟨hbnd, hlt, ?_⟩
        rw [step_walls_s_south]
        split_ifs with ha
        · rfl
        · exact hflag
  rw [h1, h2, Finset.card_insert_of_not_mem]
  · omega
  · rw [Finset.mem_filter]
    rintro ⟨-, -, hflag⟩
    rw [he] at hflag
    cases hflag

theorem step_walls_north (g : Grid) (cx cy : Nat) (h0 : 0 < cy) (y x : Nat) :
    ((markVisited (removeWall g (cx, cy) (cx, cy - 1)) cx (cy - 1)) y x).walls =
      if x = cx ∧ y = cy then { (g cy cx).walls with n := false }
      else if x = cx ∧ y = cy - 1 then { (g (cy - 1) cx).walls with s := false }
      else (g y x).walls := by
  rw [markVisited_walls, removeWall_north_eval g cx cy y x h0]
  split_ifs <;> rfl

theorem step_walls_n_north (g : Grid) (cx cy : Nat) (h0 : 0 < cy) (y x : Nat) :
    ((markVisited (removeWall g (cx, cy) (cx, cy - 1)) cx (cy - 1)) y x).walls.n =
      if x = cx ∧ y = cy then false else (g y x).walls.n := by
  rw [step_walls_north g cx cy h0]
  by_cases h1 : x = cx ∧ y = cy
  · rw [if_pos h1, if_pos h1]
  · rw [if_neg h1, if_neg h1]
    by_cases h2 : x = cx ∧ y = cy - 1
    · rw [if_pos h2, h2.1, h2.2]
    · rw [if_neg h2]

theorem step_walls_s_north (g : Grid) (cx cy : Nat) (h0 : 0 < cy) (y x : Nat) :
    ((markVisited (removeWall g (cx, cy) (cx, cy - 1)) cx (cy - 1)) y x).walls.s =
      if x = cx ∧ y = cy - 1 then false else (g y x).walls.s := by
  rw [step_walls_north g cx cy h0]
  by_cases h1 : x = cx ∧ y = cy
  · rw [if_pos h1, if_neg (by omega : ¬(x = cx ∧ y = cy - 1)), h1.1, h1.2]
  · rw [if_neg h1]
    by_cases h2 : x = cx ∧ y = cy - 1
    · rw [if_pos h2, if_pos h2]
    · rw [if_neg h2, if_neg h2]

theorem step_walls_e_north (g : Grid) (cx cy : Nat) (h0 : 0 < cy) (y x : Nat) :
    ((markVisited (removeWall g (cx, cy) (cx, cy - 1)) cx (cy - 1)) y x).walls.e =
      (g y x).walls.e := by
  rw [step_walls_north g cx cy h0]
  by_cases h1 : x = cx ∧ y = cy
  · rw [if_pos h1, h1.1, h1.2]
  · rw [if_neg h1]
    by_cases h2 : x = cx ∧ y = cy - 1
    · rw [if_pos h2, h2.1, h2.2]
    · rw [if_neg h2]

theorem step_walls_w_north (g : Grid) (cx cy : Nat) (h0 : 0 < cy) (y x : Nat) :
    ((markVisited (removeWall g (cx, cy) (cx, cy - 1)) cx (cy - 1)) y x).walls.w =
      (g y x).walls.w := by
  rw [step_walls_north g cx cy h0]
  by_cases h1 : x = cx ∧ y = cy
  · rw [if_pos h1, h1.1, h1.2]
  · rw [if_neg h1]
    by_cases h2 : x = cx ∧ y = cy - 1
    · rw [if_pos h2, h2.1, h2.2]
    · rw [if_neg h2]

theorem step_open_new_north {width height : Nat} (g : Grid) (cx cy : Nat)
    (hcx : cx < width) (hcy : cy < height) (h0 : 0 < cy) :
    openStep width height (markVisited (removeWall g (cx, cy) (cx, cy - 1)) cx (cy - 1))
      (cx, cy) (cx, cy - 1) := by
  refine ⟨hcx, hcy, hcx, by omega, Or.inr (Or.inr (Or.inr ⟨by omega, rfl, ?_⟩))⟩
  rw [step_walls_n_north g cx cy h0, if_pos ⟨rfl, rfl⟩]

theorem step_open_mono_north {width height : Nat} (g : Grid) (cx cy : Nat) (h0 : 0 < cy) :
    ∀ p q : Nat × Nat, openStep width height g p q →
      openStep width height (markVisited (removeWall g (cx, cy) (cx, cy - 1)) cx (cy - 1)) p q := by
  rintro p q ⟨b1, b2, b3, b4, hd⟩
  refine ⟨b1, b2, b3, b4, ?_⟩
  rcases hd with ⟨e1, e2, e3⟩ | ⟨e1, e2, e3⟩ | ⟨e1, e2, e3⟩ | ⟨e1, e2, e3⟩
  · exact Or.inl ⟨e1, e2, by rw [step_walls_e_north g cx cy h0]; exact e3⟩
  · exact Or.inr (Or.inl ⟨e1, e2, by rw [step_walls_w_north g cx cy h0]; exact e3⟩)
  · exact Or.inr (Or.inr (Or.inl ⟨e1, e2,
      by rw [step_walls_s_north g cx cy h0]; split_ifs <;> simp_all⟩))
  · exact Or.inr (Or.inr (Or.inr ⟨e1, e2,
      by rw [step_walls_n_north g cx cy h0]; split_ifs <;> simp_all⟩))

theorem step_open_char_north {width height : Nat} (g : Grid) (cx cy : Nat) (h0 : 0 < cy) :
    ∀ p q : Nat × Nat,
      openStep width height (markVisited (removeWall g (cx, cy) (cx, cy - 1)) cx (cy - 1)) p q →
      openStep width height g p q ∨ (p = (cx, cy) ∧ q = (cx, cy - 1)) ∨
        (p = (cx, cy - 1) ∧ q = (cx, cy)) := by
  intro p q h
  by_cases hpq1 : p = (cx, cy) ∧ q = (cx, cy - 1)
  · exact Or.inr (Or.inl hpq1)
  by_cases hpq2 : p = (cx, cy - 1) ∧ q = (cx, cy)
  · exact Or.inr (Or.inr hpq2)
  left
  obtain ⟨b1, b2, b3, b4, hd⟩ := h
  refine ⟨b1, b2, b3, b4, ?_⟩
  rcases hd with ⟨e1, e2, e3⟩ | ⟨e1, e2, e3⟩ | ⟨e1, e2, e3⟩ | ⟨e1, e2, e3⟩
  · exact Or.inl ⟨e1, e2, by rw [step_walls_e_north g cx cy h0] at e3; exact e3⟩
  · exact Or.inr (Or.inl ⟨e1, e2, by rw [step_walls_w_north g cx cy h0] at e3; exact e3⟩)
  · refine Or.inr (Or.inr (Or.inl ⟨e1, e2, ?_⟩))
    rw [step_walls_s_north g cx cy h0] at e3
    split_ifs at e3 with h1
    · exfalso
      exact hpq2 ⟨Prod.ext h1.1 h1.2, Prod.ext (by omega) (by omega)⟩
    · exact e3
  · refine Or.inr (Or.inr (Or.inr ⟨e1, e2, ?_⟩))
    rw [step_walls_n_north g cx cy h0] at e3
    split_ifs at e3 with h1
    · exfalso
      exact hpq1 ⟨Prod.ext h1.1 h1.2, Prod.ext (by omega) (by omega)⟩
    · exact e3

theorem step_symmE_north {width height : Nat} (g : Grid) (cx cy : Nat) (h0 : 0 < cy)
    (hsE : wallSymmE width height g) :
    wallSymmE width height (markVisited (removeWall g (cx, cy) (cx, cy - 1)) cx (cy - 1)) := by
  intro x y hx hy
  rw [step_walls_e_north g cx cy h0, step_walls_w_north g cx cy h0]
  exact hsE x y hx hy

theorem step_symmS_north {width height : Nat} (g : Grid) (cx cy : Nat) (h0 : 0 < cy)
    (hsS : wallSymmS width height g) :
    wallSymmS width height (markVisited (removeWall g (cx, cy) (cx, cy - 1)) cx (cy - 1)) := by
  intro x y hx hy
  rw [step_walls_s_north g cx cy h0, step_walls_n_north g cx cy h0]
  by_cases h1 : x = cx ∧ y = cy - 1
  · rw [if_pos h1, if_pos (by omega : x = cx ∧ y + 1 = cy)]
  · rw [if_neg h1, if_neg (by omega : ¬(x = cx ∧ y + 1 = cy))]
    exact hsS x y hx hy

theorem step_border_north {width height : Nat} (g : Grid) (cx cy : Nat)
    (hcy : cy < height) (h0 : 0 < cy) (hbd : borderWalls width height g) :
    borderWalls width height (markVisited (removeWall g (cx, cy) (cx, cy - 1)) cx (cy - 1)) := by
  obtain ⟨hbd1, hbd2⟩ := hbd
  constructor
  · intro x hx
    rw [step_walls_n_north g cx cy h0, step_walls_s_north g cx cy h0]
    rw [if_neg (by omega : ¬(x = cx ∧ (0 : Nat) = cy)),
      if_neg (by omega : ¬(x = cx ∧ height - 1 = cy - 1))]
    exact hbd1 x hx
  · intro y hy
    rw [step_walls_w_north g cx cy h0, step_walls_e_north g cx cy h0]
    exact hbd2 y hy

theorem step_edgeCount_north {width height : Nat} (g : Grid) (cx cy : Nat)
    (hcx : cx < width) (hcy : cy < height) (h0 : 0 < cy)
    (he : (g (cy - 1) cx).walls.s = true) :
    edgeCount width height (markVisited (removeWall g (cx, cy) (cx, cy - 1)) cx (cy - 1)) =
      edgeCount width height g + 1 := by
  unfold edgeCount
  have h1 : ((posFinset width height).filter (fun p =>
        p.1 + 1 < width ∧
        ((markVisited (removeWall g (cx, cy) (cx, cy - 1)) cx (cy - 1)) p.2 p.1).walls.e =
          false)) =
      ((posFinset width height).filter
        (fun p => p.1 + 1 < width ∧ (g p.2 p.1).walls.e = false)) := by
    apply Finset.filter_congr
    intro p hp
    rw [step_walls_e_north g cx cy h0]
  have h2 : ((posFinset width height).filter (fun p =>
        p.2 + 1 < height ∧
        ((markVisited (removeWall g (cx, cy) (cx, cy - 1)) cx (cy - 1)) p.2 p.1).walls.s =
          false)) =
      insert ((cx, cy - 1) : Nat × Nat)
        ((posFinset width height).filter
          (fun p => p.2 + 1 < height ∧ (g p.2 p.1).walls.s = false)) := by
    ext p
    rw [Finset.mem_insert, Finset.mem_filter, Finset.mem_filter, mem_posFinset]
    constructor
    · rintro ⟨hbnd, hlt, hflag⟩
      rw [step_walls_s_north g cx cy h0] at hflag
      split_ifs at hflag with ha
      · exact Or.inl (Prod.ext ha.1 ha.2)
      · exact Or.inr ⟨hbnd, hlt, hflag⟩
    · rintro (rfl | ⟨hbnd, hlt, hflag⟩)
      · refine ⟨⟨hcx, by omega⟩, by omega, ?_⟩
        rw [step_walls_s_north g cx cy h0, if_pos ⟨rfl, rfl⟩]
      · refine ⟨hbnd, hlt, ?_⟩
        rw [step_walls_s_north g cx cy h0]
        split_ifs with ha
        · rfl
        · exact hflag
  rw [h1, h2, Finset.card_insert_of_not_mem]
  · omega
  · rw [Finset.mem_filter]
    rintro ⟨-, -, hflag⟩
    rw [he] at hflag
    cases hflag

/-- Carving toward any member of the unvisited-neighbor list preserves the
loop invariant. -/
theorem Inv_step {width height : Nat} {g : Grid} {cur next : Nat × Nat}
    {rest : List (Nat × Nat)}
    (hinv : Inv width height g (cur :: rest))
    (hmem : next ∈ getUnvisitedNeighbors width height g cur.1 cur.2) :
    Inv width height (markVisited (removeWall g cur next) next.1 next.2)
      (next :: cur :: rest) := by
  obtain ⟨hcb1, hcb2⟩ := hinv.stack_bounds cur (List.mem_cons_self _ _)
  obtain ⟨hu, hcase⟩ := mem_getUnvisitedNeighbors hmem
  have hnu : visitedAt g next.1 next.2 = false := by
    rw [isUnvisitedAt_eq_not_visitedAt] at hu
    cases h : visitedAt g next.1 next.2
    · rfl
    · rw [h] at hu; cases hu
  obtain ⟨cx, cy⟩ := cur
  simp only at hcb1 hcb2
  rcases hcase with ⟨h0, he⟩ | ⟨hb, he⟩ | ⟨hb, he⟩ | ⟨h0, he⟩ <;> subst he
  · -- north: next = (cx, cy - 1)
    have hwall : (g (cy - 1) cx).walls.s = true := by
      cases hw : (g (cy - 1) cx).walls.s
      · exfalso
        have hop : openStep width height g (cx, cy - 1) (cx, cy) :=
          ⟨hcb1, by omega, hcb1, hcb2, Or.inr (Or.inr (Or.inl ⟨by omega, rfl, hw⟩))⟩
        have := (hinv.open_vis _ _ hop).1
        rw [this] at hnu
        cases hnu
      · rfl
    exact Inv_push hinv hcb1 (by omega) hnu
      (step_open_new_north g cx cy hcb1 hcb2 h0)
      (step_open_char_north g cx cy h0)
      (step_edgeCount_north g cx cy hcb1 hcb2 h0 hwall)
      (step_symmE_north g cx cy h0 hinv.symmE)
      (step_symmS_north g cx cy h0 hinv.symmS)
      (step_border_north g cx cy hcb2 h0 hinv.border)
      (step_open_mono_north g cx cy h0)
  · -- east: next = (cx + 1, cy)
    have hwall : (g cy cx).walls.e = true := by
      cases hw : (g cy cx).walls.e
      · exfalso
        have hop : openStep width height g (cx, cy) (cx + 1, cy) :=
          ⟨hcb1, hcb2, hb, hcb2, Or.inl ⟨rfl, rfl, hw⟩⟩
        have := (hinv.open_vis _ _ hop).2
        rw [this] at hnu
        cases hnu
      · rfl
    exact Inv_push hinv hb hcb2 hnu
      (step_open_new_east g cx cy hcb1 hcb2 hb)
      (step_open_char_east g cx cy)
      (step_edgeCount_east g cx cy hcb2 hb hwall)
      (step_symmE_east g cx cy hinv.symmE)
      (step_symmS_east g cx cy hinv.symmS)
      (step_border_east g cx cy hb hinv.border)
      (step_open_mono_east g cx cy)
  · -- south: next = (cx, cy + 1)
    have hwall : (g cy cx).walls.s = true := by
      cases hw : (g cy cx).walls.s
      · exfalso
        have hop : openStep width height g (cx, cy) (cx, cy + 1) :=
          ⟨hcb1, hcb2, hcb1, hb, Or.inr (Or.inr (Or.inl ⟨rfl, rfl, hw⟩))⟩
        have := (hinv.open_vis _ _ hop).2
        rw [this] at hnu
        cases hnu
      · rfl
    exact Inv_push hinv hcb1 hb hnu
      (step_open_new_south g cx cy hcb1 hcb2 hb)
      (step_open_char_south g cx cy)
      (step_edgeCount_south g cx cy hcb1 hcb2 hb hwall)
      (step_symmE_south g cx cy hinv.symmE)
      (step_symmS_south g cx cy hinv.symmS)
      (step_border_south g cx cy hb hinv.border)
      (step_open_mono_south g cx cy)
  · -- west: next = (cx - 1, cy)
    have hwall : (g cy (cx - 1)).walls.e = true := by
      cases hw : (g cy (cx - 1)).walls.e
      · exfalso
        have hop : openStep width height g (cx - 1, cy) (cx, cy) :=
          ⟨by omega, hcb2, hcb1, hcb2, Or.inl ⟨by omega, rfl, hw⟩⟩
        have := (hinv.open_vis _ _ hop).1
        rw [this] at hnu
        cases hnu
      · rfl
    exact Inv_push hinv (by omega) hcb2 hnu
      (step_open_new_west g cx cy hcb1 hcb2 h0)
      (step_open_char_west g cx cy h0)
      (step_edgeCount_west g cx cy hcb1 hcb2 h0 hwall)
      (step_symmE_west g cx cy h0 hinv.symmE)
      (step_symmS_west g cx cy h0 hinv.symmS)
      (step_border_west g cx cy hcb1 h0 hinv.border)
      (step_open_mono_west g cx cy h0)

/-- The carving loop preserves the invariant down to stack exhaustion. -/
theorem genLoop_inv (width height : Nat) (g : Grid) (stack : List (Nat × Nat))
    (rs : Nat → Nat) (hinv : Inv width height g stack) :
    Inv width height (genLoop width height g stack rs) [] := by
  revert hinv
  induction g, stack, rs using genLoop.induct width height with
  | case1 g rs =>
    intro hinv
    rw [genLoop]
    exact hinv
  | case2 g rs current rest neighbors h ih =>
    intro hinv
    rw [genLoop]
    rw [dif_pos h]
    exact ih (Inv_pop hinv (List.length_eq_zero.mp h))
  | case3 g rs current rest neighbors h next ih =>
    intro hinv
    rw [genLoop]
    rw [dif_neg h]
    exact ih (Inv_step hinv (List.get_mem _ _ _))

theorem init_walls (width height y x : Nat) :
    ((markVisited (initGrid width height) 0 0) y x).walls = ⟨true, true, true, true⟩ := by
  rw [markVisited_walls]
  rfl

theorem init_visitedAt (width height x y : Nat) :
    visitedAt (markVisited (initGrid width height) 0 0) x y =
      if x = 0 ∧ y = 0 then true else false := by
  rw [visitedAt_markVisited]
  split_ifs <;> rfl

/-- The invariant holds when the loop starts: fresh grid, start cell
marked, stack `[(0,0)]`. -/
theorem Inv_init (width height : Nat) (hw : 1 ≤ width) (hh : 1 ≤ height) :
    Inv width height (markVisited (initGrid width height) 0 0) [(0, 0)] := by
  refine ⟨?_, ?_, ?_, ?_, ?_, ?_, ?_, ?_, ?_, ?_, ?_⟩
  · intro x y
    constructor
    · rw [(markVisited_coords _ _ _ _ _).1]; rfl
    · rw [(markVisited_coords _ _ _ _ _).2]; rfl
  · intro p hp
    rw [List.mem_singleton] at hp
    subst hp
    exact ⟨hw, hh⟩
  · intro p hp
    rw [List.mem_singleton] at hp
    subst hp
    rw [init_visitedAt, if_pos ⟨rfl, rfl⟩]
  · rw [init_visitedAt, if_pos ⟨rfl, rfl⟩]
  · intro p h1 h2 h3 hnotin
    exfalso
    rw [init_visitedAt] at h3
    split_ifs at h3 with hc
    · exact hnotin (by rw [List.mem_singleton]; exact Prod.ext hc.1 hc.2)
  · intro p h1 h2 h3
    rw [init_visitedAt] at h3
    split_ifs at h3 with hc
    · have : p = ((0, 0) : Nat × Nat) := Prod.ext hc.1 hc.2
      subst this
      exact Relation.ReflTransGen.refl
  · intro p q hpq
    exfalso
    obtain ⟨-, -, -, -, hd⟩ := hpq
    rcases hd with ⟨-, -, e3⟩ | ⟨-, -, e3⟩ | ⟨-, -, e3⟩ | ⟨-, -, e3⟩ <;>
      rw [init_walls] at e3 <;> cases e3
  · have he : edgeCount width height (markVisited (initGrid width height) 0 0) = 0 := by
      unfold edgeCount
      rw [Finset.filter_false_of_mem, Finset.filter_false_of_mem]
      · rfl
      · intro p hp
        rw [init_walls]
        rintro ⟨-, hc⟩
        cases hc
      · intro p hp
        rw [init_walls]
        rintro ⟨-, hc⟩
        cases hc
    have hv : visitedCount width height (markVisited (initGrid width height) 0 0) = 1 := by
      unfold visitedCount
      have : ((posFinset width height).filter (fun p =>
          visitedAt (markVisited (initGrid width height) 0 0) p.1 p.2 = true)) =
          {((0, 0) : Nat × Nat)} := by
        ext p
        rw [Finset.mem_filter, Finset.mem_singleton, mem_posFinset, init_visitedAt]
        constructor
        · rintro ⟨-, hv⟩
          split_ifs at hv with hc
          exact Prod.ext hc.1 hc.2
        · rintro rfl
          exact ⟨⟨hw, hh⟩, by rw [if_pos ⟨rfl, rfl⟩]⟩
      rw [this, Finset.card_singleton]
    rw [he, hv]
  · intro x y hx hy
    rw [init_walls, init_walls]
  · intro x y hx hy
    rw [init_walls, init_walls]
  · constructor
    · intro x hx
      rw [init_walls, init_walls]
      exact ⟨rfl, rfl⟩
    · intro y hy
      rw [init_walls, init_walls]
      exact ⟨rfl, rfl⟩

/-- At stack exhaustion every in-bounds cell is visited: an unvisited cell
nearest the origin would be an unvisited neighbor of a visited, popped
cell, contradicting that popped cells keep no unvisited neighbors. -/
theorem final_all_visited {width height : Nat} {g : Grid}
    (hinv : Inv width height g ([] : List (Nat × Nat))) :
    ∀ p : Nat × Nat, p.1 < width → p.2 < height → visitedAt g p.1 p.2 = true := by
  suffices h : ∀ n : Nat, ∀ p : Nat × Nat, p.1 + p.2 = n → p.1 < width → p.2 < height →
      visitedAt g p.1 p.2 = true by
    intro p hx hy
    exact h (p.1 + p.2) p rfl hx hy
  intro n
  induction n using Nat.strong_induction_on with
  | _ n ih =>
    intro p hsum hx hy
    by_cases h1 : 0 < p.1
    · have hq : visitedAt g (p.1 - 1) p.2 = true :=
        ih (p.1 - 1 + p.2) (by omega) (p.1 - 1, p.2) rfl (by omega) hy
      have hnil := hinv.offstack_done (p.1 - 1, p.2) (by omega) hy hq (List.not_mem_nil _)
      rw [getUnvisitedNeighbors_eq_nil] at hnil
      have hs := hnil.2.1
      simp only at hs
      cases hv : visitedAt g p.1 p.2
      · exfalso
        apply hs
        have hr : p.1 - 1 + 1 = p.1 := by omega
        rw [hr]
        exact ⟨hx, by rw [isUnvisitedAt_eq_not_visitedAt, hv]; rfl⟩
      · rfl
    · by_cases h2 : 0 < p.2
      · have hq : visitedAt g p.1 (p.2 - 1) = true :=
          ih (p.1 + (p.2 - 1)) (by omega) (p.1, p.2 - 1) rfl hx (by omega)
        have hnil := hinv.offstack_done (p.1, p.2 - 1) hx (by omega) hq (List.not_mem_nil _)
        rw [getUnvisitedNeighbors_eq_nil] at hnil
        have hs := hnil.2.2.1
        simp only at hs
        cases hv : visitedAt g p.1 p.2
        · exfalso
          apply hs
          have hr : p.2 - 1 + 1 = p.2 := by omega
          rw [hr]
          exact ⟨hy, by rw [isUnvisitedAt_eq_not_visitedAt, hv]; rfl⟩
        · rfl
      · have hp : p = ((0, 0) : Nat × Nat) := Prod.ext (by omega) (by omega)
        subst hp
        exact hinv.origin_visited

theorem posFinset_card (width height : Nat) :
    (posFinset width height).card = width * height := by
  rw [posFinset, Finset.card_product, Finset.card_range, Finset.card_range]

/-- At stack exhaustion the carved grid is a spanning tree. -/
theorem Inv_final_spanning {width height : Nat} {g : Grid}
    (hinv : Inv width height g ([] : List (Nat × Nat))) :
    SpanningTree width height g := by
  have hall := final_all_visited hinv
  constructor
  · intro p hx hy
    exact hinv.reach p hx hy (hall p hx hy)
  · have hv : visitedCount width height g = width * height := by
      unfold visitedCount
      rw [Finset.filter_true_of_mem, posFinset_card]
      intro p hp
      rw [mem_posFinset] at hp
      exact hall p hp.1 hp.2
    have he := hinv.ecount
    rw [hv] at he
    omega

theorem clearVisited_walls (width height : Nat) (g : Grid) (y x : Nat) :
    ((clearVisited width height g) y x).walls = (g y x).walls := by
  unfold clearVisited
  split_ifs <;> rfl

theorem clearVisited_visited {width height : Nat} (g : Grid) {y x : Nat}
    (hy : y < height) (hx : x < width) :
    ((clearVisited width height g) y x).visited = none := by
  unfold clearVisited
  rw [if_pos ⟨hy, hx⟩]

theorem clearVisited_coords (width height : Nat) (g : Grid) (y x : Nat) :
    ((clearVisited width height g) y x).x = (g y x).x ∧
    ((clearVisited width height g) y x).y = (g y x).y := by
  unfold clearVisited
  split_ifs <;> exact ⟨rfl, rfl⟩

theorem openStep_congr {width height : Nat} {g g2 : Grid}
    (hwq : ∀ y x, (g2 y x).walls = (g y x).walls) {p q : Nat × Nat}
    (h : openStep width height g p q) : openStep width height g2 p q := by
  obtain ⟨b1, b2, b3, b4, hd⟩ := h
  refine ⟨b1, b2, b3, b4, ?_⟩
  rcases hd with ⟨e1, e2, e3⟩ | ⟨e1, e2, e3⟩ | ⟨e1, e2, e3⟩ | ⟨e1, e2, e3⟩
  · exact Or.inl ⟨e1, e2, by rw [hwq]; exact e3⟩
  · exact Or.inr (Or.inl ⟨e1, e2, by rw [hwq]; exact e3⟩)
  · exact Or.inr (Or.inr (Or.inl ⟨e1, e2, by rw [hwq]; exact e3⟩))
  · exact Or.inr (Or.inr (Or.inr ⟨e1, e2, by rw [hwq]; exact e3⟩))

theorem edgeCount_congr {width height : Nat} {g g2 : Grid}
    (hwq : ∀ y x, (g2 y x).walls = (g y x).walls) :
    edgeCount width height g2 = edgeCount width height g := by
  unfold edgeCount
  have h1 : ((posFinset width height).filter
        (fun p => p.1 + 1 < width ∧ (g2 p.2 p.1).walls.e = false)) =
      ((posFinset width height).filter
        (fun p => p.1 + 1 < width ∧ (g p.2 p.1).walls.e = false)) := by
    apply Finset.filter_congr
    intro p hp
    rw [hwq]
  have h2 : ((posFinset width height).filter
        (fun p => p.2 + 1 < height ∧ (g2 p.2 p.1).walls.s = false)) =
      ((posFinset width height).filter
        (fun p => p.2 + 1 < height ∧ (g p.2 p.1).walls.s = false)) := by
    apply Finset.filter_congr
    intro p hp
    rw [hwq]
  rw [h1, h2]

/-- The walls of the generated grid are those carved by the loop (the
cleanup only deletes `visited`). -/
theorem generate_walls (width height : Nat) (rs : Nat → Nat) (y x : Nat) :
    ((generate width height rs) y x).walls =
      ((genLoop width height (markVisited (initGrid width height) 0 0) [(0, 0)] rs) y x).walls :=
  clearVisited_walls width height _ y x

/-- Master theorem about `Maze.generate`: for positive dimensions, the
resulting grid is a spanning tree of the full grid graph, wall-symmetric,
and keeps every outward border wall. -/
theorem generate_spec (width height : Nat) (rs : Nat → Nat)
    (hw : 1 ≤ width) (hh : 1 ≤ height) :
    SpanningTree width height (generate width height rs) ∧
    wallSymm width height (generate width height rs) ∧
    borderWalls width height (generate width height rs) := by
  have hinv := genLoop_inv width height (markVisited (initGrid width height) 0 0)
    [(0, 0)] rs (Inv_init width height hw hh)
  have hsp := Inv_final_spanning hinv
  refine ⟨⟨?_, ?_⟩, ⟨?_, ?_⟩, ?_, ?_⟩
  · intro p hx hy
    exact Relation.ReflTransGen.mono
      (fun a b hab => openStep_congr (generate_walls width height rs) hab)
      (hsp.1 p hx hy)
  · rw [edgeCount_congr (generate_walls width height rs)]
    exact hsp.2
  · intro x y hx hy
    rw [generate_walls width height rs y x, generate_walls width height rs y (x + 1)]
    exact hinv.symmE x y hx hy
  · intro x y hx hy
    rw [generate_walls width height rs y x, generate_walls width height rs (y + 1) x]
    exact hinv.symmS x y hx hy
  · intro x hx
    rw [generate_walls width height rs 0 x, generate_walls width height rs (height - 1) x]
    exact hinv.border.1 x hx
  · intro y hy
    rw [generate_walls width height rs y 0, generate_walls width height rs y (width - 1)]
    exact hinv.border.2 y hy

/-- The cleanup pass really deletes every in-bounds `visited` marker. -/
theorem generate_visited {width height : Nat} (rs : Nat → Nat) {x y : Nat}
    (hx : x < width) (hy : y < height) :
    ((generate width height rs) y x).visited = none :=
  clearVisited_visited _ hy hx

/-- Cells of the generated grid carry their own coordinates. -/
theorem generate_coords (width height : Nat) (rs : Nat → Nat)
    (hw : 1 ≤ width) (hh : 1 ≤ height) (x y : Nat) :
    ((generate width height rs) y x).x = x ∧ ((generate width height rs) y x).y = y := by
  have hinv := genLoop_inv width height (markVisited (initGrid width height) 0 0)
    [(0, 0)] rs (Inv_init width height hw hh)
  have hc := hinv.coords x y
  exact ⟨(clearVisited_coords width height _ y x).1.trans hc.1,
    (clearVisited_coords width height _ y x).2.trans hc.2⟩

/-- For every start state some finite fuel makes the fueled loop finish,
with the same result as the total loop: the `while` loop terminates. -/
theorem genLoopF_terminates (width height : Nat) (g : Grid)
    (stack : List (Nat × Nat)) (rs : Nat → Nat) :
    ∃ fuel, genLoopF width height fuel g stack rs =
      some (genLoop width height g stack rs) := by
  induction g, stack, rs using genLoop.induct width height with
  | case1 g rs =>
    refine ⟨1, ?_⟩
    rw [genLoop]
    rfl
  | case2 g rs current rest neighbors h ih =>
    obtain ⟨fl, hfl⟩ := ih
    refine ⟨fl + 1, ?_⟩
    rw [genLoop, dif_pos h]
    show (if _ : neighbors.length = 0 then genLoopF width height fl g rest rs else _) = _
    rw [dif_pos h]
    exact hfl
  | case3 g rs current rest neighbors h next ih =>
    obtain ⟨fl, hfl⟩ := ih
    refine ⟨fl + 1, ?_⟩
    rw [genLoop, dif_neg h]
    show (if _ : neighbors.length = 0 then _
      else genLoopF width height fl
        (markVisited (removeWall g current next) next.1 next.2)
        (next :: current :: rest) (fun n => rs (n + 1))) = _
    rw [dif_neg h]
    exact hfl

/-- Modelled from the spec: "count of set wall flags on the cell". -/
def Walls.countSet (ws : Walls) : Nat :=
  (if ws.n then 1 else 0) + (if ws.e then 1 else 0) +
  (if ws.s then 1 else 0) + (if ws.w then 1 else 0)

/-- C1: for every width ≥ 1 and height ≥ 1, after construction (which runs
generation) or after `regenerate()`, the open-adjacency graph on all
`width × height` cells is connected (every cell reachable from the start)
and has exactly `width * height - 1` edges — a spanning tree, hence
exactly one simple path between any two cells. Quantified over every
random stream. -/
theorem claim1_spanning_tree (width height : Nat) (rs rs2 : Nat → Nat)
    (hw : 1 ≤ width) (hh : 1 ≤ height) :
    SpanningTree width height (mkMaze width height rs).grid ∧
    SpanningTree width height (regenerate (mkMaze width height rs) rs2).grid :=
  ⟨(generate_spec width height rs hw hh).1, (generate_spec width height rs2 hw hh).1⟩

theorem claim1_spanning_tree_witness :
    (1 ≤ 2 ∧ 1 ≤ 3) ∧
    SpanningTree 2 3 (mkMaze 2 3 (fun _ => 0)).grid ∧
    SpanningTree 2 3 (regenerate (mkMaze 2 3 (fun _ => 0)) (fun _ => 1)).grid :=
  ⟨by decide, claim1_spanning_tree 2 3 (fun _ => 0) (fun _ => 1) (by decide) (by decide)⟩

/-- C2: in every generated maze (after construction or `regenerate()`),
grid-adjacent cells agree on their shared wall: the east flag of `(x,y)`
equals the west flag of `(x+1,y)`, and the south flag of `(x,y)` equals
the north flag of `(x,y+1)`. -/
theorem claim2_wall_symmetry (width height : Nat) (rs rs2 : Nat → Nat)
    (hw : 1 ≤ width) (hh : 1 ≤ height) :
    wallSymm width height (mkMaze width height rs).grid ∧
    wallSymm width height (regenerate (mkMaze width height rs) rs2).grid :=
  ⟨(generate_spec width height rs hw hh).2.1, (generate_spec width height rs2 hw hh).2.1⟩

theorem claim2_wall_symmetry_witness :
    (1 ≤ 3 ∧ 1 ≤ 2) ∧
    wallSymm 3 2 (mkMaze 3 2 (fun _ => 0)).grid ∧
    wallSymm 3 2 (regenerate (mkMaze 3 2 (fun _ => 0)) (fun _ => 1)).grid :=
  ⟨by decide, claim2_wall_symmetry 3 2 (fun _ => 0) (fun _ => 1) (by decide) (by decide)⟩

/-- C3: for every positive width and height (and every random stream), the
generation loop terminates — some finite fuel makes the fueled loop
return `some`, agreeing with the total function `generate` — and the
result is a valid (spanning-tree) maze; generation never fails. -/
theorem claim3_generation_terminates (width height : Nat) (rs : Nat → Nat)
    (hw : 1 ≤ width) (hh : 1 ≤ height) :
    (∃ fuel, generateF width height fuel rs = some (generate width height rs)) ∧
    SpanningTree width height (generate width height rs) := by
  constructor
  · obtain ⟨fl, hfl⟩ := genLoopF_terminates width height
      (markVisited (initGrid width height) 0 0) [(0, 0)] rs
    exact ⟨fl, by rw [generateF, hfl]; rfl⟩
  · exact (generate_spec width height rs hw hh).1

theorem claim3_generation_terminates_witness :
    (1 ≤ 2 ∧ 1 ≤ 2) ∧
    (∃ fuel, generateF 2 2 fuel (fun _ => 0) = some (generate 2 2 (fun _ => 0))) ∧
    SpanningTree 2 2 (generate 2 2 (fun _ => 0)) :=
  ⟨by decide, claim3_generation_terminates 2 2 (fun _ => 0) (by decide) (by decide)⟩

/-- C4: for every in-bounds coordinate, `canMove` with a recognized
direction returns `'wall'` (BLOCKED_BY_WALL) exactly when the matching
wall flag of the cell at `(x, y)` is set and the JS literal `false`
(OPEN) otherwise; any unrecognized direction token yields `'invalid'`
(INVALID_DIRECTION). -/
theorem claim4_canMove_in_bounds (m : Maze) (x y : Int)
    (hx0 : 0 ≤ x) (hx : x < (m.width : Int)) (hy0 : 0 ≤ y) (hy : y < (m.height : Int)) :
    (canMove m x y "n" =
      (if (m.grid y.toNat x.toNat).walls.n then .wall else .falseVal)) ∧
    (canMove m x y "e" =
      (if (m.grid y.toNat x.toNat).walls.e then .wall else .falseVal)) ∧
    (canMove m x y "s" =
      (if (m.grid y.toNat x.toNat).walls.s then .wall else .falseVal)) ∧
    (canMove m x y "w" =
      (if (m.grid y.toNat x.toNat).walls.w then .wall else .falseVal)) ∧
    (∀ d : String, d ≠ "n" → d ≠ "e" → d ≠ "s" → d ≠ "w" →
      canMove m x y d = .invalid) := by
  have hb : ¬(x < 0 ∨ x ≥ (m.width : Int) ∨ y < 0 ∨ y ≥ (m.height : Int)) := by
    omega
  refine ⟨?_, ?_, ?_, ?_, ?_⟩
  · unfold canMove
    rw [if_neg hb, if_pos rfl]
  · unfold canMove
    rw [if_neg hb, if_neg (by decide : ¬("e" = "n")), if_pos rfl]
  · unfold canMove
    rw [if_neg hb, if_neg (by decide : ¬("s" = "n")),
      if_neg (by decide : ¬("s" = "e")), if_pos rfl]
  · unfold canMove
    rw [if_neg hb, if_neg (by decide : ¬("w" = "n")),
      if_neg (by decide : ¬("w" = "e")), if_neg (by decide : ¬("w" = "s")), if_pos rfl]
  · intro d h1 h2 h3 h4
    unfold canMove
    rw [if_neg hb, if_neg h1, if_neg h2, if_neg h3, if_neg h4]

theorem claim4_canMove_in_bounds_witness :
    ((0 : Int) ≤ 0 ∧ (0 : Int) < ((mkMaze 2 2 (fun _ => 0)).width : Int)) ∧
    canMove (mkMaze 2 2 (fun _ => 0)) 0 0 "q" = .invalid :=
  ⟨by decide,
    (claim4_canMove_in_bounds (mkMaze 2 2 (fun _ => 0)) 0 0 (by decide) (by decide)
      (by decide) (by decide)).2.2.2.2 "q" (by decide) (by decide) (by decide) (by decide)⟩

/-- C5: for every coordinate outside `[0,width) × [0,height)` and every
direction string whatsoever, `canMove` returns `'boundary'`
(OUT_OF_BOUNDS): the bounds check precedes direction validation. -/
theorem claim5_canMove_out_of_bounds (m : Maze) (x y : Int)
    (h : x < 0 ∨ x ≥ (m.width : Int) ∨ y < 0 ∨ y ≥ (m.height : Int))
    (d : String) : canMove m x y d = .boundary := by
  unfold canMove
  rw [if_pos h]

theorem claim5_canMove_out_of_bounds_witness :
    ((-1 : Int) < 0 ∨ (-1 : Int) ≥ ((mkMaze 2 2 (fun _ => 0)).width : Int) ∨
      (0 : Int) < 0 ∨ (0 : Int) ≥ ((mkMaze 2 2 (fun _ => 0)).height : Int)) ∧
    canMove (mkMaze 2 2 (fun _ => 0)) (-1) 0 "zzz" = .boundary :=
  ⟨by decide,
    claim5_canMove_out_of_bounds (mkMaze 2 2 (fun _ => 0)) (-1) 0 (by decide) "zzz"⟩

/-- C6: every border cell of a generated maze keeps its outward-facing
wall flag set, and in particular `canMove(0, 0, 'n')` returns `'wall'`
(BLOCKED_BY_WALL) on any generated maze. -/
theorem claim6_border_walls (width height : Nat) (rs : Nat → Nat)
    (hw : 1 ≤ width) (hh : 1 ≤ height) :
    borderWalls width height (mkMaze width height rs).grid ∧
    canMove (mkMaze width height rs) 0 0 "n" = .wall := by
  have hbd := (generate_spec width height rs hw hh).2.2
  refine ⟨hbd, ?_⟩
  have hb : ¬((0 : Int) < 0 ∨ (0 : Int) ≥ ((mkMaze width height rs).width : Int) ∨
      (0 : Int) < 0 ∨ (0 : Int) ≥ ((mkMaze width height rs).height : Int)) := by
    have h1 : (0 : Int) < ((width : Nat) : Int) := by omega
    have h2 : (0 : Int) < ((height : Nat) : Int) := by omega
    push_neg
    exact ⟨by omega, h1, by omega, h2⟩
  have hn : ((mkMaze width height rs).grid 0 0).walls.n = true :=
    (hbd.1 0 (by omega)).1
  unfold canMove
  rw [if_neg hb, if_pos rfl]
  show (if ((mkMaze width height rs).grid 0 0).walls.n then MoveResult.wall
    else MoveResult.falseVal) = MoveResult.wall
  rw [hn]
  rfl

theorem claim6_border_walls_witness :
    (1 ≤ 2 ∧ 1 ≤ 2) ∧
    borderWalls 2 2 (mkMaze 2 2 (fun _ => 0)).grid ∧
    canMove (mkMaze 2 2 (fun _ => 0)) 0 0 "n" = .wall :=
  ⟨by decide, claim6_border_walls 2 2 (fun _ => 0) (by decide) (by decide)⟩

/-- C7: `regenerate()` replaces the wall state (the grid becomes a fresh
`generate` result) but preserves `width`, `height`, `start = (0,0)` and
`goal = (width-1, height-1)`, and the regenerated grid again satisfies
the spanning-tree and wall-symmetry invariants. -/
theorem claim7_regenerate_frame (width height : Nat) (rs rs2 : Nat → Nat)
    (hw : 1 ≤ width) (hh : 1 ≤ height) :
    (regenerate (mkMaze width height rs) rs2).width = width ∧
    (regenerate (mkMaze width height rs) rs2).height = height ∧
    (regenerate (mkMaze width height rs) rs2).start = ((0, 0) : Nat × Nat) ∧
    (regenerate (mkMaze width height rs) rs2).goal = (width - 1, height - 1) ∧
    (regenerate (mkMaze width height rs) rs2).grid = generate width height rs2 ∧
    SpanningTree width height (regenerate (mkMaze width height rs) rs2).grid ∧
    wallSymm width height (regenerate (mkMaze width height rs) rs2).grid :=
  ⟨rfl, rfl, rfl, rfl, rfl, (generate_spec width height rs2 hw hh).1,
    (generate_spec width height rs2 hw hh).2.1⟩

theorem claim7_regenerate_frame_witness :
    (1 ≤ 2 ∧ 1 ≤ 2) ∧
    (regenerate (mkMaze 2 2 (fun _ => 0)) (fun _ => 1)).width = 2 ∧
    (regenerate (mkMaze 2 2 (fun _ => 0)) (fun _ => 1)).start = ((0, 0) : Nat × Nat) ∧
    (regenerate (mkMaze 2 2 (fun _ => 0)) (fun _ => 1)).goal = ((1, 1) : Nat × Nat) ∧
    SpanningTree 2 2 (regenerate (mkMaze 2 2 (fun _ => 0)) (fun _ => 1)).grid := by
  have h := claim7_regenerate_frame 2 2 (fun _ => 0) (fun _ => 1) (by decide) (by decide)
  exact ⟨by decide, h.1, h.2.2.1, h.2.2.2.1, h.2.2.2.2.2.1⟩

/-- C8: for an in-bounds coordinate the adjacent-wall-count query returns
exactly the number of set wall flags of the cell, an integer at most 4;
for an out-of-range coordinate it returns 0 instead of failing. -/
theorem claim8_adjacent_wall_count (m : Maze) (x y : Int) :
    (0 ≤ x → x < (m.width : Int) → 0 ≤ y → y < (m.height : Int) →
      getAdjacentWallCount m x y = Walls.countSet (m.grid y.toNat x.toNat).walls ∧
      getAdjacentWallCount m x y ≤ 4) ∧
    (¬(0 ≤ x ∧ x < (m.width : Int) ∧ 0 ≤ y ∧ y < (m.height : Int)) →
      getAdjacentWallCount m x y = 0) := by
  constructor
  · intro h1 h2 h3 h4
    have hcell : getCell m x y = some (m.grid y.toNat x.toNat) := by
      unfold getCell
      rw [if_pos ⟨h1, h2, h3, h4⟩]
    constructor
    · unfold getAdjacentWallCount
      rw [hcell]
      rfl
    · unfold getAdjacentWallCount
      rw [hcell]
      simp only
      split_ifs <;> omega
  · intro hno
    have hcell : getCell m x y = none := by
      unfold getCell
      rw [if_neg hno]
    unfold getAdjacentWallCount
    rw [hcell]

theorem claim8_adjacent_wall_count_witness :
    getAdjacentWallCount (mkMaze 2 2 (fun _ => 0)) (-5) 7 = 0 :=
  (claim8_adjacent_wall_count (mkMaze 2 2 (fun _ => 0)) (-5) 7).2 (by decide)

/-- C9: after construction (and hence after any `generate()` run) no cell
carries a `visited` marker: every in-bounds cell of the grid has
`visited = none` (the property was deleted), and any cell returned by
`getCell` exposes only its position (matching the queried coordinates)
and wall flags, with `visited` absent. -/
theorem claim9_visited_cleared (width height : Nat) (rs : Nat → Nat)
    (hw : 1 ≤ width) (hh : 1 ≤ height) :
    (∀ x y : Nat, x < width → y < height →
      ((mkMaze width height rs).grid y x).visited = none) ∧
    (∀ (x y : Int) (c : Cell), getCell (mkMaze width height rs) x y = some c →
      c.visited = none ∧ c.x = x.toNat ∧ c.y = y.toNat) := by
  constructor
  · intro x y hx hy
    exact generate_visited rs hx hy
  · intro x y c hc
    unfold getCell at hc
    split_ifs at hc with hb
    · obtain ⟨h1, h2, h3, h4⟩ := hb
      have h2' : x < (width : Int) := h2
      have h4' : y < (height : Int) := h4
      injection hc with hc'
      subst hc'
      refine ⟨?_, ?_, ?_⟩
      · exact generate_visited rs (by omega) (by omega)
      · exact (generate_coords width height rs hw hh x.toNat y.toNat).1
      · exact (generate_coords width height rs hw hh x.toNat y.toNat).2

theorem claim9_visited_cleared_witness :
    (1 ≤ 2 ∧ 1 ≤ 2) ∧
    ((mkMaze 2 2 (fun _ => 0)).grid 1 0).visited = none :=
  ⟨by decide,
    (claim9_visited_cleared 2 2 (fun _ => 0) (by decide) (by decide)).1 0 1
      (by decide) (by decide)⟩

/-- C10: constructing a `Maze` with both dimension arguments omitted uses
the defaults of `constructor(width = 20, height = 20)`: a 20×20 grid with
`start = (0,0)`, `goal = (19,19)`, and generation run immediately exactly
as for explicit dimensions. -/
theorem claim10_default_dimensions (rs : Nat → Nat) :
    (mkMazeDefault rs).width = 20 ∧ (mkMazeDefault rs).height = 20 ∧
    (mkMazeDefault rs).start = ((0, 0) : Nat × Nat) ∧
    (mkMazeDefault rs).goal = ((19, 19) : Nat × Nat) ∧
    (mkMazeDefault rs).grid = (mkMaze 20 20 rs).grid :=
  ⟨rfl, rfl, rfl, rfl, rfl⟩
